import Mathlib

/-!
# A shallow embedding of the spreadsheet engine

This file embeds the core of the spreadsheet program (`spreadsheet.py`,
`spreadsheet_functions.py`, `spreadsheet_history.py`) in Lean 4 and proves or
refutes the claims of the specification against it.

Conventions of the embedding:

* Python strings are `String`, Python ints/floats are exact rationals
  (`PyNum`; all values reached by the analysed traces are exact), Python `None` is `Val.pynone` and the
  pandas `NaN` fill is `Val.nan`.
* Python dicts are association lists (`alookup`/`ainsert`/`aerase`) which keep
  insertion order, like CPython dicts.  Python sets are duplicate-free lists in
  insertion order; CPython set iteration order is unspecified, but every result
  we prove about a concrete trace is independent of that order.
* Methods that mutate `self` become functions `Sheet → Option SErr × Sheet`;
  a `some e` first component models an escaping Python exception, and the
  second component is the (possibly partially mutated) state at the moment the
  exception escapes.
* The recursive method family `set_cell_value` / `delete_cell` /
  `recalculate_dependents` / `execute_function` / `function_handle` is mutually
  recursive in the source; it is embedded as a single fuel-indexed function
  `runCall` over a call descriptor, with one branch per source method.  Running
  out of fuel models Python's `RecursionError`.
* The arithmetic expression evaluator is the external `simpleeval` library,
  which is not part of this repository; it is modelled from the spec (§4.4):
  numeric literals, `+ - * /`, parentheses and identifiers resolved through
  the reference table, with division by zero, operand-type mismatch and
  general failure as the three failure modes.
-/

namespace SpreadsheetModel

/-! ## Character helpers (ASCII, as used by the `re` patterns in the source) -/

/-- `[A-Za-z]`, the letter class of the source's cell-address regexes. -/
def isLetterB (c : Char) : Bool :=
  (decide ('A' ≤ c) && decide (c ≤ 'Z')) || (decide ('a' ≤ c) && decide (c ≤ 'z'))

/-- `\d` (ASCII digits, which is all the source's addresses use). -/
def isDigitB (c : Char) : Bool :=
  decide ('0' ≤ c) && decide (c ≤ '9')

/-- Python `value_str.startswith("=")`. -/
def startsWithEq (s : String) : Bool :=
  match s.data with
  | '=' :: _ => true
  | _ => false

/-- Python `str.upper` on a single ASCII character. -/
def pyUpperChar (c : Char) : Char :=
  if 'a' ≤ c ∧ c ≤ 'z' then Char.ofNat (c.toNat - 32) else c

/-- `int(...)` on a run of ASCII digits. -/
def natOfDigits (cs : List Char) : Nat :=
  cs.foldl (fun a c => a * 10 + (c.toNat - 48)) 0

/-! ## AddressCodec (`parse_cell_address`, `column_letter_to_index`,
`convert_indices_to_cell_address`, `index_to_column_letter`) -/

/--
`Spreadsheet.parse_cell_address`: match `^([A-Za-z]+)(\d+)$` and return
`(int(row), letters.upper())`; `none` models the raised `ValueError`.
-/
def parseCellAddress (s : String) : Option (Nat × String) :=
  let cs := s.data
  let letters := cs.takeWhile isLetterB
  let rest := cs.dropWhile isLetterB
  if letters ≠ [] ∧ rest ≠ [] ∧ rest.all isDigitB then
    some (natOfDigits rest, String.mk (letters.map pyUpperChar))
  else none

/-- The accumulating loop of `column_letter_to_index` (before the final `- 1`):
`index = index * 26 + (ord(char.upper()) - ord('A') + 1)`. -/
def letterVal (cs : List Char) : Nat :=
  cs.foldl (fun a c => a * 26 + ((pyUpperChar c).toNat - 64)) 0

/-- `Spreadsheet.column_letter_to_index`: zero-based column index of a label. -/
def columnLetterToIndex (s : String) : Nat :=
  letterVal s.data - 1

/-- The shared `while col >= 0: col, r = divmod(col, 26); label = chr(65+r) + label; col -= 1`
loop of `convert_indices_to_cell_address` / `index_to_column_letter`, written
with structural fuel (`colLoop` instantiates it with enough fuel that it
never runs out: the loop variable strictly decreases). -/
def colLoopF : Nat → Nat → List Char → List Char
  | 0, _, acc => acc
  | f + 1, i, acc =>
    let q := i / 26
    let c := Char.ofNat (65 + i % 26)
    if q = 0 then c :: acc else colLoopF f (q - 1) (c :: acc)

/-- The base-26 letters loop (see `colLoopF`). -/
def colLoop (i : Nat) (acc : List Char) : List Char :=
  colLoopF (i + 1) i acc

/-- `Spreadsheet.index_to_column_letter`. -/
def indexToColumnLetter (i : Nat) : String :=
  String.mk (colLoop i [])

/-- The digit loop of Python's decimal `str(n)` (used through the f-string in
`convert_indices_to_cell_address`), with structural fuel like `colLoopF`. -/
def digitsLoopF : Nat → Nat → List Char → List Char
  | 0, _, acc => acc
  | f + 1, n, acc =>
    let q := n / 10
    let c := Char.ofNat (48 + n % 10)
    if q = 0 then c :: acc else digitsLoopF f q (c :: acc)

/-- The decimal digits loop (see `digitsLoopF`). -/
def digitsLoop (n : Nat) (acc : List Char) : List Char :=
  digitsLoopF (n + 1) n acc

/-- Decimal representation of a natural number, as Python `str`. -/
def natRepr (n : Nat) : String :=
  String.mk (digitsLoop n [])

/-- `Spreadsheet.convert_indices_to_cell_address` (zero-based `row` and `col`):
the bijective base-26 label of `col` followed by `str(row + 1)`. -/
def convertIndicesToCellAddress (row col : Nat) : String :=
  String.mk (colLoop col [] ++ digitsLoop (row + 1) [])

/-! ## Ranges (`is_valid_range`, `cell_in_function_range`) -/

/-- Python string `<=` on ASCII strings (lexicographic by code point); this is
the comparison `start_col <= end_col` performs in `is_valid_range`, where both
operands are column *labels*, not indices. -/
def listCharLe : List Char → List Char → Bool
  | [], _ => true
  | _ :: _, [] => false
  | a :: as, b :: bs => if a = b then listCharLe as bs else decide (a < b)

/-- Python `<=` on strings. -/
def pyStrLe (a b : String) : Bool :=
  listCharLe a.data b.data

/--
`Spreadsheet.is_valid_range`: parse both addresses and test
`start_row <= end_row and start_col <= end_col`, where the column comparison
is Python string comparison of the (uppercased) labels.  `none` models the
`ValueError` escaping from `parse_cell_address`.
-/
def isValidRange (startCell endCell : String) : Option Bool :=
  match parseCellAddress startCell, parseCellAddress endCell with
  | some (sr, sc), some (er, ec) => some (decide (sr ≤ er) && pyStrLe sc ec)
  | _, _ => none

/--
`Spreadsheet.cell_in_function_range`: the row is compared by number and the
column by zero-based *index* (unlike `is_valid_range`).  `none` models a
`ValueError` from parsing any of the three addresses.
-/
def cellInFunctionRange (cell : String) (r : String × String) : Option Bool :=
  match parseCellAddress r.1, parseCellAddress r.2, parseCellAddress cell with
  | some (sr, sc), some (er, ec), some (ur, uc) =>
    some (decide (sr ≤ ur) && decide (ur ≤ er) &&
      decide (columnLetterToIndex sc ≤ columnLetterToIndex uc) &&
      decide (columnLetterToIndex uc ≤ columnLetterToIndex ec))
  | _, _, _ => none

/-! ## `re.findall(r'[A-Za-z]+\d+', ...)` -/

/--
`re.findall(r'[A-Za-z]+\d+', text)`: scan left to right for non-overlapping
maximal runs of letters followed by a non-empty maximal run of digits.  A
letter run with no digit after it cannot match at any of its positions (the
pattern would still need a digit after a shorter letter run), so the scan
resumes after the run.  Written with structural fuel; every recursive call
strictly shortens the character list, so `findRefs` instantiates the fuel so
that it never runs out.
-/
def findRefsF : Nat → List Char → List String
  | 0, _ => []
  | _ + 1, [] => []
  | f + 1, c :: cs =>
    if isLetterB c then
      let ls := (c :: cs).takeWhile isLetterB
      let rest := (c :: cs).dropWhile isLetterB
      let ds := rest.takeWhile isDigitB
      let rest2 := rest.dropWhile isDigitB
      if ds.isEmpty then findRefsF f rest else String.mk (ls ++ ds) :: findRefsF f rest2
    else findRefsF f cs

/-- `re.findall(r'[A-Za-z]+\d+', text)` (see `findRefsF`). -/
def findRefs (cs : List Char) : List String :=
  findRefsF (cs.length + 1) cs

/-- `re.findall` over a `String` (the form the source applies to formulas). -/
def findRefsStr (s : String) : List String :=
  findRefs s.data

/-! ## Exact numbers

All numeric values reached by the analysed traces are exact, so Python
numbers are embedded as rationals.  A small self-contained rational type is
used (numerator, positive denominator, reduced by construction through
`qnorm`) so that every arithmetic step reduces inside the kernel. -/

/-- An exact rational: `num / den` with `den > 0` and the fraction reduced
(both guaranteed by building values only through `qnorm` and literals with
denominator 1). -/
structure PyNum where
  num : Int
  den : Int
deriving DecidableEq, Repr

/-- Build the canonical representation of `n / d` (for `d ≠ 0`). -/
def qnorm (n d : Int) : PyNum :=
  let sg : Int := if d < 0 then -1 else 1
  let n := sg * n
  let d := sg * d
  let g : Int := (Int.natAbs n).gcd (Int.natAbs d)
  if g = 0 then ⟨0, 1⟩ else ⟨n / g, d / g⟩

/-- The integer `n` as a `PyNum`. -/
def pnInt (n : Int) : PyNum :=
  ⟨n, 1⟩

/-- Addition. -/
def pnAdd (a b : PyNum) : PyNum :=
  qnorm (a.num * b.den + b.num * a.den) (a.den * b.den)

/-- Subtraction. -/
def pnSub (a b : PyNum) : PyNum :=
  qnorm (a.num * b.den - b.num * a.den) (a.den * b.den)

/-- Multiplication. -/
def pnMul (a b : PyNum) : PyNum :=
  qnorm (a.num * b.num) (a.den * b.den)

/-- Division (callers check for a zero divisor first). -/
def pnDiv (a b : PyNum) : PyNum :=
  qnorm (a.num * b.den) (a.den * b.num)

/-- Negation. -/
def pnNeg (a : PyNum) : PyNum :=
  ⟨-a.num, a.den⟩

/-- Order (the denominators are positive). -/
def pnLe (a b : PyNum) : Bool :=
  decide (a.num * b.den ≤ b.num * a.den)

/-- Binary maximum. -/
def pnMax (a b : PyNum) : PyNum :=
  if pnLe a b then b else a

/-- Binary minimum. -/
def pnMin (a b : PyNum) : PyNum :=
  if pnLe a b then a else b

/-! ## Values -/

/-- A Python value held by a cell: a number (`int`/`float`, represented
exactly), a string, `None`, or the pandas `NaN` that `create_sheet` fills
fresh cells with. -/
inductive Val where
  | num (q : PyNum)
  | str (s : String)
  | pynone
  | nan
deriving DecidableEq, Repr

/-- Python truthiness of a cell value (`value or 0` in
`resolve_cell_references`): `None`, `0` and `""` are falsy; `NaN` is truthy. -/
def pyTruthy : Val → Bool
  | .num q => decide (q.num ≠ 0)
  | .str s => decide (s ≠ "")
  | .pynone => false
  | .nan => true

/-- Python `float(value_str)` restricted to the literal shapes the program
writes: an optional sign, an integer part and an optional fractional part
(`"10"`, `"-2.5"`, `"60.0"` …).  `none` models the `ValueError` that makes
`set_cell_value` keep the text as a string. -/
def pyFloatParse (s : String) : Option PyNum :=
  let p : List Char → Option PyNum := fun cs =>
    let ip := cs.takeWhile isDigitB
    let rest := cs.dropWhile isDigitB
    match rest with
    | [] =>
      if ip.isEmpty then none
      else some (pnInt (natOfDigits ip))
    | '.' :: fp =>
      if fp.all isDigitB ∧ (ip ≠ [] ∨ fp ≠ []) then
        some (qnorm ((natOfDigits ip : Int) * (10 ^ fp.length : Nat) + (natOfDigits fp : Int))
          ((10 ^ fp.length : Nat) : Int))
      else none
    | _ => none
  match s.data with
  | '-' :: cs => (p cs).map pnNeg
  | cs => p cs

/-- Python `str` of an integer (possibly negative). -/
def intRepr (z : ℤ) : String :=
  if z < 0 then "-" ++ natRepr z.natAbs else natRepr z.natAbs

/-- Python `str` of a float result of an aggregate function.  All aggregate
results in the analysed traces are integral floats, printed as `"60.0"`.  A
non-integral rational is printed with an explicit fraction; this branch is
not reached by any trace this file evaluates, and in any case the resulting
text round-trips through `set_cell_value` as an opaque string. -/
def pyStrOfFloat (q : PyNum) : String :=
  if q.den = 1 then intRepr q.num ++ ".0"
  else intRepr q.num ++ "/" ++ natRepr q.den.natAbs

/-! ## Association lists (Python dicts, in insertion order) -/

/-- Dict lookup. -/
def alookup {κ α : Type} [DecidableEq κ] (k : κ) : List (κ × α) → Option α
  | [] => none
  | (k', v) :: t => if k' = k then some v else alookup k t

/-- Dict store `d[k] = v`: overwrite in place, else append (CPython order). -/
def ainsert {κ α : Type} [DecidableEq κ] (k : κ) (v : α) : List (κ × α) → List (κ × α)
  | [] => [(k, v)]
  | (k', v') :: t => if k' = k then (k, v) :: t else (k', v') :: ainsert k v t

/-- Dict `pop(k, None)`: drop the key.  (Every reachable dict is
duplicate-free, so removing every occurrence coincides with removing the one
Python entry.) -/
def aerase {κ α : Type} [DecidableEq κ] (k : κ) : List (κ × α) → List (κ × α)
  | [] => []
  | (k', v') :: t => if k' = k then aerase k t else (k', v') :: aerase k t

/-- Python `set.add` on a duplicate-free list (insertion order; CPython set
iteration order is unspecified, and nothing proved here depends on it). -/
def setAdd (a : String) (l : List String) : List String :=
  if a ∈ l then l else l ++ [a]

/-! ## Dependency-map values

`_dependencies[cell]` holds a Python `list` when written by
`update_dependencies` (from `re.findall`) but a Python `set` when written by
`track_function_dependencies`.  The distinction is observable:
`track_function_dependencies` calls `.add` on an existing entry and crashes
with `AttributeError` if the entry is a list. -/

inductive DepVal where
  | flist (l : List String)
  | fset (l : List String)
deriving DecidableEq, Repr

/-- The member cells of a dependency entry (iteration over list or set). -/
def DepVal.cells : DepVal → List String
  | .flist l => l
  | .fset l => l

/-! ## Engine state and errors -/

/-- Python exceptions escaping from the engine's methods. -/
inductive SErr where
  | invalidAddress      -- ValueError from parse_cell_address / the cell regex
  | sizeLimit           -- ValueError "Exceeding maximum sheet size of 500x500."
  | circularDependency  -- Exception "Circular dependency detected ..."
  | formulaEvalFailed   -- Exception "Error evaluating formula ..."
  | invalidRange        -- ValueError "Invalid cell range ..."
  | badFunctionArgs     -- ValueError "Both start and end cell addresses ..."
  | unsupportedFunction -- ValueError "Unsupported function ..."
  | targetCellInRange   -- ValueError "Target cell address ... in function range"
  | attributeFault      -- AttributeError (list.add in track_function_dependencies)
  | recursionFault      -- RecursionError (unbounded recursive recalculation)
deriving DecidableEq, Repr

/-- The engine state: the `_data` DataFrame (dimensions, sparse cell store and
the fill value of unwritten in-bounds cells), `_formulas`, `_functions`,
`_dependencies` and `_reverse_dependencies`. -/
structure Sheet where
  rows : Nat
  cols : Nat
  data : List ((Nat × String) × Val)
  fill : Val
  formulas : List (String × String)
  functions : List (String × (String × (String × String)))
  deps : List (String × DepVal)
  rdeps : List (String × List String)
deriving DecidableEq, Repr

/-- A freshly constructed `Spreadsheet()`: an empty DataFrame.  Cells later
added by `expand_sheet_to_include_cell` are filled with `""`. -/
def initialSheet : Sheet :=
  ⟨0, 0, [], .str "", [], [], [], []⟩

/-- The stored value of an in-bounds cell position. -/
def cellAt (s : Sheet) (r : Nat) (lab : String) : Val :=
  match alookup (r, lab) s.data with
  | some v => v
  | none => s.fill

/--
`Spreadsheet.get_cell_value`: parse the address (a failure raises) and read
`_data.at[row, col]`; a missing row or column label raises `KeyError`, which
is caught and turned into the value `"#REF!"`.
-/
def getCellValue (s : Sheet) (cell : String) : Except SErr Val :=
  match parseCellAddress cell with
  | none => .error .invalidAddress
  | some (r, lab) =>
    if 1 ≤ r ∧ r ≤ s.rows ∧ letterVal lab.data ≤ s.cols then
      .ok (cellAt s r lab)
    else
      .ok (.str "#REF!")

/--
`Spreadsheet.set_cell_value_direct`: parse the address and store the value;
a float with zero fractional part is converted to `int` (invisible in the
exact rational representation).  Out-of-bounds stores (which pandas `.at` would
accept by enlargement) do not occur on the traces analysed here; the store
is recorded without changing the recorded dimensions.
-/
def setCellValueDirect (s : Sheet) (cell : String) (v : Val) : Option SErr × Sheet :=
  match parseCellAddress cell with
  | none => (some .invalidAddress, s)
  | some (r, lab) => (none, { s with data := ainsert (r, lab) v s.data })

/--
`Spreadsheet.expand_sheet_to_include_cell`: parse, recompute the 1-based
column position from the label, fail above 500 in either dimension, and grow
both dimensions to cover the cell (`expand_columns` / `expand_rows` each grow
only if needed, i.e. to the maximum).
-/
def expandSheet (s : Sheet) (cell : String) : Option SErr × Sheet :=
  match parseCellAddress cell with
  | none => (some .invalidAddress, s)
  | some (r, lab) =>
    let tc := letterVal lab.data
    if tc > 500 ∨ r > 500 then (some .sizeLimit, s)
    else (none, { s with rows := max s.rows r, cols := max s.cols tc })

/-- Add `cell` to `_reverse_dependencies[dep]` (creating the singleton set if
absent), as both `update_dependencies` and `track_function_dependencies` do. -/
def addRdep (dep cell : String) (m : List (String × List String)) :
    List (String × List String) :=
  match alookup dep m with
  | some l => ainsert dep (setAdd cell l) m
  | none => ainsert dep [cell] m

/--
`Spreadsheet.update_dependencies`: replace `_dependencies[cell]` by the list
of references found in the formula, then add `cell` to the reverse set of each
of them.  Stale reverse edges of references no longer present are *not*
removed.
-/
def updateDependencies (s : Sheet) (cell formula : String) : Sheet :=
  let ds := findRefsStr formula
  let s1 := { s with deps := ainsert cell (.flist ds) s.deps }
  ds.foldl (fun st d => { st with rdeps := addRdep d cell st.rdeps }) s1

/-- The member addresses of a rectangular range, in the row-major order of the
two nested loops of `track_function_dependencies`
(`convert_indices_to_cell_address(row - 1, col)`). -/
def rangeMemberCells (sr er cs ce : Nat) : List String :=
  ((List.range (er + 1 - sr)).map (sr + ·)).flatMap
    (fun r => ((List.range (ce + 1 - cs)).map (cs + ·)).map
      (fun c => convertIndicesToCellAddress (r - 1) c))

/-- One loop iteration of `track_function_dependencies`: update the reverse
map, then `.add` the member cell to `_dependencies[cell]` — which raises
`AttributeError` when the existing entry is a list (from a formula), because
Python lists have no `.add`. -/
def trackStep (cell : String) (acc : Option SErr × Sheet) (dep : String) :
    Option SErr × Sheet :=
  match acc with
  | (some e, s) => (some e, s)
  | (none, s) =>
    let s1 := { s with rdeps := addRdep dep cell s.rdeps }
    match alookup cell s1.deps with
    | some (DepVal.fset l) =>
      (none, { s1 with deps := ainsert cell (.fset (setAdd dep l)) s1.deps })
    | some (DepVal.flist _) => (some .attributeFault, s1)
    | none => (none, { s1 with deps := ainsert cell (.fset [dep]) s1.deps })

/--
`Spreadsheet.track_function_dependencies`: iterate over every member of the
function's rectangle, adding reverse edges and `.add`-ing forward edges.
-/
def trackFunctionDependencies (s : Sheet) (cell : String) (r : String × String) :
    Option SErr × Sheet :=
  match parseCellAddress r.1, parseCellAddress r.2 with
  | some (sr, sc), some (er, ec) =>
    (rangeMemberCells sr er (columnLetterToIndex sc) (columnLetterToIndex ec)).foldl
      (trackStep cell) (none, s)
  | _, _ => (some .invalidAddress, s)

/--
`Spreadsheet.clear_sheet`: re-create the DataFrame with the current dimensions
(fresh cells are `NaN`) and reset the four stores.
-/
def clearSheet (s : Sheet) : Sheet :=
  { rows := s.rows, cols := s.cols, data := [], fill := .nan,
    formulas := [], functions := [], deps := [], rdeps := [] }

/-! ## Cycle detection (`has_circular_dependency`) -/

/-- The dependency list iterated by `has_circular_dependency` for a cell
(`if cell in self._dependencies: for dep in self._dependencies[cell]`). -/
def depsCellsOf (deps : List (String × DepVal)) (cell : String) : List String :=
  match alookup cell deps with
  | some dv => dv.cells
  | none => []

/--
`Spreadsheet.has_circular_dependency(cell, target, visited)`: depth-first
search through `_dependencies` for `target`, with the `visited` set shared
across sibling recursive calls (it is a mutable Python set).  The result is
`none` when the fuel runs out, modelling `RecursionError`; `some (b, vis)`
returns the boolean and the final visited set.
-/
def dfsCirc (deps : List (String × DepVal)) (target : String) :
    Nat → String → List String → Option (Bool × List String)
  | 0, _, _ => none
  | fuel + 1, cell, visited =>
    let vis1 := setAdd cell visited
    if cell = target then some (true, vis1)
    else
      (depsCellsOf deps cell).foldl
        (fun acc d =>
          match acc with
          | none => none
          | some (true, vs) => some (true, vs)
          | some (false, vs) =>
            if d = target then some (true, vs)
            else if d ∈ vs then some (false, vs)
            else dfsCirc deps target fuel d vs)
        (some (false, vis1))

/-- The loop body of the `for dep in ...` fold inside `has_circular_dependency`
(named so the search can be reasoned about one step at a time). -/
def dfsStep (deps : List (String × DepVal)) (target : String) (f : Nat) :
    Option (Bool × List String) → String → Option (Bool × List String) :=
  fun acc d =>
    match acc with
    | none => none
    | some (true, vs) => some (true, vs)
    | some (false, vs) =>
      if d = target then some (true, vs)
      else if d ∈ vs then some (false, vs)
      else dfsCirc deps target f d vs

/-- A fuel bound large enough that `dfsCirc` never runs out on the actual
dependency graph: one more than the total number of cells mentioned in it. -/
def depsFuel (deps : List (String × DepVal)) : Nat :=
  deps.foldl (fun a p => a + 1 + p.2.cells.length) 0 + 2

/-- The cycle-check loop of `set_cell_value`: for each reference of the new
formula, run `has_circular_dependency(dep, cell)` and raise on the first
positive answer. -/
def circCheck (deps : List (String × DepVal)) (cell : String) :
    List String → Option SErr
  | [] => none
  | d :: t =>
    match dfsCirc deps cell (depsFuel deps) d [] with
    | none => some .recursionFault
    | some (true, _) => some .circularDependency
    | some (false, _) => circCheck deps cell t

/-! ## Evaluator

Modelled from the spec: the source delegates expression evaluation to the
external `simpleeval` library, which is not part of this repository.  Spec
§4.4 describes the evaluator as a restricted arithmetic expression language —
numeric literals, `+ - * /`, parentheses and identifiers resolved only
through the reference table — whose failure modes are division by zero,
operand-type mismatch (a text operand in arithmetic) and general failure.
-/

/-- Alphanumeric, for identifier tokens. -/
def isAlnumB (c : Char) : Bool :=
  isLetterB c || isDigitB c

/-- Expression tokens. -/
inductive Tok where
  | num (q : PyNum)
  | ident (s : String)
  | plus
  | minus
  | star
  | slash
  | lparen
  | rparen
deriving DecidableEq, Repr

/-- Tokenizer for the restricted arithmetic grammar; `none` is a syntax
error.  The fuel is instantiated with more than the input length, so it never
runs out. -/
def tokenize : Nat → List Char → Option (List Tok)
  | 0, _ => none
  | _ + 1, [] => some []
  | f + 1, c :: cs =>
    if c = ' ' then tokenize f cs
    else if isDigitB c then
      let ds := (c :: cs).takeWhile isDigitB
      let rest := (c :: cs).dropWhile isDigitB
      match rest with
      | '.' :: r2 =>
        let fs := r2.takeWhile isDigitB
        let r3 := r2.dropWhile isDigitB
        if fs.isEmpty then none
        else
          (tokenize f r3).map
            (Tok.num (qnorm ((natOfDigits ds : Int) * (10 ^ fs.length : Nat) +
              (natOfDigits fs : Int)) ((10 ^ fs.length : Nat) : Int)) :: ·)
      | _ => (tokenize f rest).map (Tok.num (pnInt (natOfDigits ds)) :: ·)
    else if isLetterB c then
      let ls := (c :: cs).takeWhile isAlnumB
      let rest := (c :: cs).dropWhile isAlnumB
      (tokenize f rest).map (Tok.ident (String.mk ls) :: ·)
    else if c = '+' then (tokenize f cs).map (Tok.plus :: ·)
    else if c = '-' then (tokenize f cs).map (Tok.minus :: ·)
    else if c = '*' then (tokenize f cs).map (Tok.star :: ·)
    else if c = '/' then (tokenize f cs).map (Tok.slash :: ·)
    else if c = '(' then (tokenize f cs).map (Tok.lparen :: ·)
    else if c = ')' then (tokenize f cs).map (Tok.rparen :: ·)
    else none

/-- Abstract syntax of the restricted arithmetic expressions. -/
inductive Expr where
  | num (q : PyNum)
  | ref (s : String)
  | neg (a : Expr)
  | add (a b : Expr)
  | sub (a b : Expr)
  | mul (a b : Expr)
  | div (a b : Expr)
deriving DecidableEq, Repr

/-- Parser call descriptors: `lvl 0/1/2` parse an additive expression, a term
or a factor; `ops` is the left-associative binary-operator loop carrying the
expression parsed so far. -/
inductive PCall where
  | lvl (l : Nat)
  | ops (l : Nat) (e : Expr)

/-- Recursive-descent parser over the tokens (grammar of spec §4.4).  The
fuel is instantiated generously by `evalFormula`. -/
def parseRun : Nat → PCall → List Tok → Option (Expr × List Tok)
  | 0, _, _ => none
  | f + 1, PCall.lvl l, ts =>
    if l < 2 then
      match parseRun f (.lvl (l + 1)) ts with
      | some (e, r) => parseRun f (.ops l e) r
      | none => none
    else
      match ts with
      | Tok.num q :: r => some (.num q, r)
      | Tok.ident s :: r => some (.ref s, r)
      | Tok.minus :: r =>
        match parseRun f (.lvl 2) r with
        | some (e, r2) => some (.neg e, r2)
        | none => none
      | Tok.lparen :: r =>
        match parseRun f (.lvl 0) r with
        | some (e, Tok.rparen :: r2) => some (e, r2)
        | _ => none
      | _ => none
  | f + 1, PCall.ops l e, ts =>
    match l, ts with
    | 0, Tok.plus :: r =>
      match parseRun f (.lvl 1) r with
      | some (e2, r2) => parseRun f (.ops 0 (.add e e2)) r2
      | none => none
    | 0, Tok.minus :: r =>
      match parseRun f (.lvl 1) r with
      | some (e2, r2) => parseRun f (.ops 0 (.sub e e2)) r2
      | none => none
    | 1, Tok.star :: r =>
      match parseRun f (.lvl 2) r with
      | some (e2, r2) => parseRun f (.ops 1 (.mul e e2)) r2
      | none => none
    | 1, Tok.slash :: r =>
      match parseRun f (.lvl 2) r with
      | some (e2, r2) => parseRun f (.ops 1 (.div e e2)) r2
      | none => none
    | _, _ => some (e, ts)

/-- Evaluation failure modes of spec §4.4. -/
inductive EvalErr where
  | divZero
  | typeMismatch
  | generalFault
deriving DecidableEq, Repr

/-- A binary arithmetic operation on resolved values: numbers compute,
text or `None` operands are an operand-type mismatch, anything else is a
general failure. -/
def evalBin (k : PyNum → PyNum → Except EvalErr PyNum) : Val → Val → Except EvalErr Val
  | .num a, .num b =>
    match k a b with
    | .ok q => .ok (.num q)
    | .error e => .error e
  | .str _, _ => .error .typeMismatch
  | _, .str _ => .error .typeMismatch
  | .pynone, _ => .error .typeMismatch
  | _, .pynone => .error .typeMismatch
  | _, _ => .error .generalFault

/-- Evaluate an expression against the resolved reference table; an
identifier missing from the table is a general failure (`simpleeval`'s
`NameNotDefined`). -/
def evalExpr (names : String → Option Val) : Expr → Except EvalErr Val
  | .num q => .ok (.num q)
  | .ref s =>
    match names s with
    | some v => .ok v
    | none => .error .generalFault
  | .neg a =>
    match evalExpr names a with
    | .ok (.num q) => .ok (.num (pnNeg q))
    | .ok _ => .error .typeMismatch
    | .error e => .error e
  | .add a b =>
    match evalExpr names a, evalExpr names b with
    | .ok va, .ok vb => evalBin (fun x y => .ok (pnAdd x y)) va vb
    | .error e, _ => .error e
    | _, .error e => .error e
  | .sub a b =>
    match evalExpr names a, evalExpr names b with
    | .ok va, .ok vb => evalBin (fun x y => .ok (pnSub x y)) va vb
    | .error e, _ => .error e
    | _, .error e => .error e
  | .mul a b =>
    match evalExpr names a, evalExpr names b with
    | .ok va, .ok vb => evalBin (fun x y => .ok (pnMul x y)) va vb
    | .error e, _ => .error e
    | _, .error e => .error e
  | .div a b =>
    match evalExpr names a, evalExpr names b with
    | .ok va, .ok vb =>
      evalBin (fun x y => if y.num = 0 then .error .divZero else .ok (pnDiv x y)) va vb
    | .error e, _ => .error e
    | _, .error e => .error e

/-- Tokenize, parse (requiring all input consumed) and evaluate a formula
string; any syntax failure is a general failure. -/
def evalFormula (names : String → Option Val) (formula : String) : Except EvalErr Val :=
  match tokenize (formula.data.length + 1) formula.data with
  | none => .error .generalFault
  | some ts =>
    match parseRun (4 * ts.length + 8) (.lvl 0) ts with
    | some (e, []) => evalExpr names e
    | _ => .error .generalFault

/--
`Spreadsheet.resolve_cell_references` for a single reference:
`get_cell_value(ref) or 0` — a falsy value (`None`, `0`, `""`) becomes `0`;
the error branch is unreachable because `re.findall` tokens always parse.
-/
def resolveRef (s : Sheet) (ref : String) : Val :=
  match getCellValue s ref with
  | .ok v => if pyTruthy v then v else .num (pnInt 0)
  | .error _ => .num (pnInt 0)

/-- The evaluator name table after `resolve_cell_references(formula)`: every
reference found in the formula is bound to its resolved value. -/
def namesFor (s : Sheet) (formula : String) : String → Option Val :=
  fun id => if id ∈ findRefsStr formula then some (resolveRef s id) else none

/--
`Spreadsheet.calculate_formula`: resolve the references, evaluate, and store
the result in the target cell.  `ZeroDivisionError` stores `"div/0 Error"`
and is *not* re-raised; an operand-type mismatch stores `"Value Error"` and a
general failure stores `"General Error"`, and both then re-raise (modelled as
`SErr.formulaEvalFailed`).
-/
def calculateFormula (s : Sheet) (target formula : String) : Option SErr × Sheet :=
  match evalFormula (namesFor s formula) formula with
  | .ok v => setCellValueDirect s target v
  | .error .divZero => setCellValueDirect s target (.str "div/0 Error")
  | .error .typeMismatch =>
    let r := setCellValueDirect s target (.str "Value Error")
    (some .formulaEvalFailed, r.2)
  | .error .generalFault =>
    let r := setCellValueDirect s target (.str "General Error")
    (some .formulaEvalFailed, r.2)

/-! ## Aggregate functions (`spreadsheet_functions.py`)

Each slices the DataFrame (`parse_cell_range` + `iloc`, which clamps
out-of-range slices), coerces every cell with `pd.to_numeric(errors =
'coerce')` (non-coercible cells become `NaN` and are skipped), reduces each
column and then reduces across the column results, exactly as the chained
pandas reductions do. -/

/-- `pd.to_numeric(value, errors='coerce')` on one cell. -/
def toNumericOpt : Val → Option PyNum
  | .num q => some q
  | .str s => pyFloatParse s
  | .pynone => none
  | .nan => none

/-- The closed interval `[a, b]` as a list (empty when `b < a`). -/
def listFromTo (a b : Nat) : List Nat :=
  (List.range (b + 1 - a)).map (a + ·)

/--
`Spreadsheet.parse_cell_range` + `iloc` slicing: the cells of the range,
column-major (one inner list per column of the sub-rectangle), clamped to the
sheet.  `none` models the `ValueError` from parsing either end of the range.
-/
def sliceCols (s : Sheet) (r : String × String) : Option (List (List Val)) :=
  match parseCellAddress r.1, parseCellAddress r.2 with
  | some (sr, sc), some (er, ec) =>
    let cLo := columnLetterToIndex sc
    let cHi := columnLetterToIndex ec
    let theCols := if s.cols = 0 then [] else listFromTo cLo (min cHi (s.cols - 1))
    let theRows := listFromTo sr (min er s.rows)
    some (theCols.map (fun c => theRows.map (fun r => cellAt s r (indexToColumnLetter c))))
  | _, _ => none

/-- The numeric members of one column after coercion. -/
def coerceCol (col : List Val) : List PyNum :=
  col.filterMap toNumericOpt

/-- Sum of a list of rationals. -/
def sumQ (l : List PyNum) : PyNum :=
  l.foldl pnAdd (pnInt 0)

/-- Maximum of a non-empty list (pandas `max` of an all-`NaN` column is
`NaN`, i.e. `none`). -/
def listMaxQ : List PyNum → Option PyNum
  | [] => none
  | h :: t => some (t.foldl pnMax h)

/-- Minimum, symmetric to `listMaxQ`. -/
def listMinQ : List PyNum → Option PyNum
  | [] => none
  | h :: t => some (t.foldl pnMin h)

/-- Mean of a column (`none` when no numeric member survives coercion). -/
def listMeanQ (l : List PyNum) : Option PyNum :=
  if l.length = 0 then none else some (pnDiv (sumQ l) (pnInt l.length))

/-- Median with the usual even-length interpolation, as pandas computes it. -/
def listMedianQ (l : List PyNum) : Option PyNum :=
  match l with
  | [] => none
  | _ =>
    let sorted := l.mergeSort pnLe
    let n := l.length
    if n % 2 = 1 then some (sorted.getD (n / 2) (pnInt 0))
    else some (pnDiv (pnAdd (sorted.getD (n / 2 - 1) (pnInt 0)) (sorted.getD (n / 2) (pnInt 0)))
      (pnInt 2))

/-- `SpreadsheetFunctions.function_sum`: `...sum().sum()` then `str`. -/
def functionSum (s : Sheet) (r : String × String) : Option String :=
  (sliceCols s r).map (fun cols => pyStrOfFloat (sumQ (cols.map (fun c => sumQ (coerceCol c)))))

/-- Sum of a list of naturals. -/
def sumNat (l : List Nat) : Nat :=
  l.foldl (· + ·) 0

/-- `SpreadsheetFunctions.function_count`: count of numeric cells, `str` of
the integer count. -/
def functionCount (s : Sheet) (r : String × String) : Option String :=
  (sliceCols s r).map (fun cols => natRepr (sumNat (cols.map (fun c => (coerceCol c).length))))

/-- `SpreadsheetFunctions.function_product`: `...prod().prod()`. -/
def functionProduct (s : Sheet) (r : String × String) : Option String :=
  (sliceCols s r).map
    (fun cols => pyStrOfFloat
      ((cols.map (fun c => (coerceCol c).foldl pnMul (pnInt 1))).foldl pnMul (pnInt 1)))

/-- `SpreadsheetFunctions.function_max`: `...max().max()`; `"nan"` when no
numeric cell is in range. -/
def functionMax (s : Sheet) (r : String × String) : Option String :=
  (sliceCols s r).map (fun cols =>
    match listMaxQ (cols.filterMap (fun c => listMaxQ (coerceCol c))) with
    | some q => pyStrOfFloat q
    | none => "nan")

/-- `SpreadsheetFunctions.function_min`. -/
def functionMin (s : Sheet) (r : String × String) : Option String :=
  (sliceCols s r).map (fun cols =>
    match listMinQ (cols.filterMap (fun c => listMinQ (coerceCol c))) with
    | some q => pyStrOfFloat q
    | none => "nan")

/-- `SpreadsheetFunctions.function_average`: `...mean().mean()` — the mean of
the per-column means, as the chained pandas reduction computes. -/
def functionAverage (s : Sheet) (r : String × String) : Option String :=
  (sliceCols s r).map (fun cols =>
    match listMeanQ (cols.filterMap (fun c => listMeanQ (coerceCol c))) with
    | some q => pyStrOfFloat q
    | none => "nan")

/-- `SpreadsheetFunctions.function_median`: `...median().median()` — the
median of the per-column medians. -/
def functionMedian (s : Sheet) (r : String × String) : Option String :=
  (sliceCols s r).map (fun cols =>
    match listMedianQ (cols.filterMap (fun c => listMedianQ (coerceCol c))) with
    | some q => pyStrOfFloat q
    | none => "nan")

/-- The function-name dispatch of `execute_function`. -/
def functionDispatch (s : Sheet) (fn : String) (r : String × String) : Option (Option String) :=
  if fn = "Sum" then some (functionSum s r)
  else if fn = "Average" then some (functionAverage s r)
  else if fn = "Max" then some (functionMax s r)
  else if fn = "Min" then some (functionMin s r)
  else if fn = "Count" then some (functionCount s r)
  else if fn = "Median" then some (functionMedian s r)
  else if fn = "Product" then some (functionProduct s r)
  else none

/-- The function names `recalculate_dependents` re-executes. -/
def aggNames : List String :=
  ["Sum", "Average", "Max", "Min", "Count", "Median", "Product"]

/-! ## The recursive engine

`set_cell_value`, `delete_cell`, `recalculate_dependents`, `execute_function`
and `function_handle` are mutually recursive methods.  They are embedded as
one fuel-indexed function over a call descriptor (one constructor per source
method, plus one per source loop so that the loop state is explicit).
Exhausting the fuel models Python's `RecursionError`; every theorem below
either holds for all fuels or instantiates the fuel generously. -/

/-- Call descriptors of the engine. -/
inductive MCall where
  | scv (cell value : String) (finfo : Option (String × (String × String)))
  | del (cell : String)
  | recalcDeps (cell : String)
  | recalcRdepLoop (cells : List String)
  | recalcFuncLoop (funcs : List (String × (String × (String × String)))) (cell : String)
  | exec (cell fn : String) (r : String × String)
  | fhandle (cell fn : String) (r : String × String) (result : String)

/-- Sequence two engine steps, propagating an escaping exception together
with the state at the moment it escapes. -/
def bindE (r : Option SErr × Sheet) (k : Sheet → Option SErr × Sheet) : Option SErr × Sheet :=
  match r with
  | (some e, s) => (some e, s)
  | (none, s) => k s

/--
The engine.  Branches:

* `scv` is `Spreadsheet.set_cell_value(cell, value, function_info)`:
  expand the sheet; delete on empty input; delete an existing formula or
  function entry; store the function info; parse the value as a float;
  for a formula, run the cycle check, commit formula + dependencies,
  evaluate, and cascade; otherwise store directly and cascade.
* `del` is `Spreadsheet.delete_cell`.
* `recalcDeps` is `Spreadsheet.recalculate_dependents`; `recalcRdepLoop` is
  its loop over `_reverse_dependencies[cell]` and `recalcFuncLoop` its loop
  over the snapshot `list(self._functions.items())`.
* `exec` is `Spreadsheet.execute_function` and `fhandle`
  `Spreadsheet.function_handle`.
-/
def runCall : Nat → MCall → Sheet → Option SErr × Sheet
  | 0, _, s => (some .recursionFault, s)
  | f + 1, c, s =>
    match c with
    | .scv cell value finfo =>
      bindE (expandSheet s cell) fun s =>
      bindE (if value = "" then runCall f (.del cell) s else (none, s)) fun s =>
      bindE (if (alookup cell s.formulas).isSome ∨ (alookup cell s.functions).isSome then
               runCall f (.del cell) s
             else (none, s)) fun s =>
      let s := match finfo with
               | some fi => { s with functions := ainsert cell fi s.functions }
               | none => s
      if startsWithEq value then
        let formula := String.mk (value.data.drop 1)
        let tempDeps := findRefsStr formula
        match circCheck s.deps cell tempDeps with
        | some e => (some e, s)
        | none =>
          let s := { s with formulas := ainsert cell formula s.formulas }
          let s := updateDependencies s cell formula
          bindE (calculateFormula s cell formula) fun s =>
          runCall f (.recalcDeps cell) s
      else
        let tv := match pyFloatParse value with
                  | some q => Val.num q
                  | none => Val.str value
        bindE (setCellValueDirect s cell tv) fun s =>
        runCall f (.recalcDeps cell) s
    | .del cell =>
      bindE (setCellValueDirect s cell .pynone) fun s =>
      let s := { s with formulas := aerase cell s.formulas,
                        functions := aerase cell s.functions }
      runCall f (.recalcDeps cell) s
    | .recalcDeps cell =>
      bindE (match alookup cell s.rdeps with
             | some l => runCall f (.recalcRdepLoop l) s
             | none => (none, s)) fun s =>
      runCall f (.recalcFuncLoop s.functions cell) s
    | .recalcRdepLoop cells =>
      match cells with
      | [] => (none, s)
      | c :: t =>
        bindE (match alookup c s.formulas with
               | some fo =>
                 bindE (calculateFormula s c fo) fun s =>
                 runCall f (.recalcDeps c) s
               | none => (none, s)) fun s =>
        runCall f (.recalcRdepLoop t) s
    | .recalcFuncLoop funcs cell =>
      match funcs with
      | [] => (none, s)
      | (fc, (fn, r)) :: t =>
        bindE (match cellInFunctionRange cell r with
               | none => (some .invalidAddress, s)
               | some false => (none, s)
               | some true =>
                 bindE (if fn ∈ aggNames then runCall f (.exec fc fn r) s else (none, s)) fun s =>
                 runCall f (.recalcDeps fc) s) fun s =>
        runCall f (.recalcFuncLoop t cell) s
    | .exec cell fn r =>
      match parseCellAddress cell with
      | none => (some .invalidAddress, s)
      | some _ =>
        if r.1 = "" ∨ r.2 = "" then (some .badFunctionArgs, s)
        else
          match isValidRange r.1 r.2 with
          | none => (some .invalidAddress, s)
          | some false => (some .invalidRange, s)
          | some true =>
            match cellInFunctionRange cell r with
            | none => (some .invalidAddress, s)
            | some true => (some .targetCellInRange, s)
            | some false =>
              match functionDispatch s fn r with
              | none => (some .unsupportedFunction, s)
              | some none => (some .invalidAddress, s)
              | some (some result) => runCall f (.fhandle cell fn r result) s
    | .fhandle cell fn r result =>
      bindE (runCall f (.scv cell result (some (fn, r))) s) fun s =>
      trackFunctionDependencies s cell r

/-- `Spreadsheet.set_cell_value` (public entry, `function_info=None`). -/
def setCellValue (fuel : Nat) (s : Sheet) (cell value : String) : Option SErr × Sheet :=
  runCall fuel (.scv cell value none) s

/-- `Spreadsheet.delete_cell` (public entry). -/
def deleteCell (fuel : Nat) (s : Sheet) (cell : String) : Option SErr × Sheet :=
  runCall fuel (.del cell) s

/-- `Spreadsheet.execute_function` (public entry). -/
def executeFunction (fuel : Nat) (s : Sheet) (cell fn : String) (r : String × String) :
    Option SErr × Sheet :=
  runCall fuel (.exec cell fn r) s

/-- The tail of `set_cell_value` after the possible deletions and the storing
of the function info: the formula branch (cycle check, commit, evaluate,
cascade) or the direct-store branch. -/
def scvTail (f : Nat) (cell value : String) (s : Sheet) : Option SErr × Sheet :=
  if startsWithEq value then
    match circCheck s.deps cell (findRefsStr (String.mk (value.data.drop 1))) with
    | some e => (some e, s)
    | none =>
      bindE (calculateFormula
          (updateDependencies
            { s with formulas := ainsert cell (String.mk (value.data.drop 1)) s.formulas }
            cell (String.mk (value.data.drop 1)))
          cell (String.mk (value.data.drop 1))) fun s =>
      runCall f (.recalcDeps cell) s
  else
    bindE (setCellValueDirect s cell (match pyFloatParse value with
      | some q => Val.num q
      | none => Val.str value)) fun s =>
    runCall f (.recalcDeps cell) s

/-! ## Operation sequences -/

/-- A public mutating operation of the engine's boundary. -/
inductive Op where
  | set (cell value : String)
  | del (cell : String)
  | exec (cell fn : String) (r : String × String)
  | clear
deriving DecidableEq, Repr

/-- Run one public operation. -/
def runOp (fuel : Nat) (s : Sheet) : Op → Option SErr × Sheet
  | .set c v => setCellValue fuel s c v
  | .del c => deleteCell fuel s c
  | .exec c fn r => executeFunction fuel s c fn r
  | .clear => (none, clearSheet s)

/-- Run a sequence of public operations, requiring every one of them to be
accepted without error; `none` if any operation raises. -/
def runTraceOk (fuel : Nat) : Sheet → List Op → Option Sheet
  | s, [] => some s
  | s, op :: t =>
    match runOp fuel s op with
    | (none, s') => runTraceOk fuel s' t
    | (some _, _) => none

/-! ## History manager (`spreadsheet_history.py`)

The snapshot directory is modelled as the list of snapshot-file identifiers
in modification-time order, oldest first (each `save_current_state` creates a
strictly newer file). -/

/--
`SpreadsheetHistory.enforce_max_history_limit`:
`while len(files) >= max_history: os.remove(files.pop(0))` — evict oldest
files until fewer than `max_history` remain.  (With `max_history = 0` the
Python loop would fail popping an empty list; the claims use the default 20.)
-/
def enforceMaxHistory (maxH : Nat) : List Nat → List Nat
  | [] => []
  | h :: t => if maxH ≤ (h :: t).length then enforceMaxHistory maxH t else h :: t

/--
`SpreadsheetHistory.save_current_state`: enforce the limit first, then write
one new (newest) snapshot file.
-/
def saveCurrentState (maxH : Nat) (files : List Nat) (newId : Nat) : List Nat :=
  enforceMaxHistory maxH files ++ [newId]

/-- The directory contents after `n` consecutive `save_current_state` calls
starting from an empty history directory. -/
def savesFrom (maxH n : Nat) : List Nat :=
  (List.range n).foldl (saveCurrentState maxH) []

/-! ## Dependency-graph notions used by the claims -/

/-- The edge relation of `_dependencies`: `b` is a direct dependency of `a`. -/
def depEdge (deps : List (String × DepVal)) (a b : String) : Prop :=
  b ∈ depsCellsOf deps a

/-- Reachability (reflexive-transitive closure) through `_dependencies`. -/
def depReach (deps : List (String × DepVal)) (a b : String) : Prop :=
  Relation.ReflTransGen (depEdge deps) a b

/-- `a` is in the transitive closure of its own dependency set. -/
def inOwnClosure (deps : List (String × DepVal)) (a : String) : Prop :=
  Relation.TransGen (depEdge deps) a a

/-- The no-cycle invariant of the spec: no cell is in the transitive closure
of its own dependency set. -/
def acyclicDeps (deps : List (String × DepVal)) : Prop :=
  ∀ a, ¬ inOwnClosure deps a

/-- The forward half of the dependency-map inverse invariant: every forward
edge `b ∈ deps[a]` has a matching reverse edge `a ∈ rdeps[b]`. -/
def depsSubRdeps (s : Sheet) : Prop :=
  ∀ a dv, alookup a s.deps = some dv → ∀ b ∈ dv.cells,
    ∃ l, alookup b s.rdeps = some l ∧ a ∈ l

/-- The backward half: every reverse edge comes from a current forward edge. -/
def rdepsSubDeps (s : Sheet) : Prop :=
  ∀ b l, alookup b s.rdeps = some l → ∀ a ∈ l,
    ∃ dv, alookup a s.deps = some dv ∧ b ∈ dv.cells

/-- `m'` extends `m`: every reverse-dependency set of `m` is still present in
`m'` with at least the same members.  (`update_dependencies` and
`track_function_dependencies` only ever add reverse edges.) -/
def rdepsGrow (m m' : List (String × List String)) : Prop :=
  ∀ b l, alookup b m = some l → ∃ l2, alookup b m' = some l2 ∧ ∀ x ∈ l, x ∈ l2

/-- The reverse-map half of `update_dependencies`: add `cell` to the reverse
set of every referent in `ds`. -/
def rdFoldAdd (cell : String) (ds : List String) (m : List (String × List String)) :
    List (String × List String) :=
  ds.foldl (fun m d => addRdep d cell m) m

/-- The engine calls reachable while only `set_cell_value` (public entry) and
`delete_cell` run on a function-free sheet: the function loop only ever sees
the empty snapshot and `execute_function` is never entered. -/
def funcFreeCall : MCall → Prop
  | .scv _ _ finfo => finfo = none
  | .del _ => True
  | .recalcDeps _ => True
  | .recalcRdepLoop _ => True
  | .recalcFuncLoop funcs _ => funcs = []
  | .exec _ _ _ => False
  | .fhandle _ _ _ _ => False

/-- The joint invariant of formula-only runs: `_functions` is empty and
`_dependencies` has no cell in its own transitive closure. -/
def funcsNilAcyclic (s : Sheet) : Prop :=
  s.functions = [] ∧ acyclicDeps s.deps

/-- A trace of `set_cell_value` writes only (the claims' "formula writes"),
from the freshly constructed engine. -/
def runSetTraceOk (fuel : Nat) (l : List (String × String)) : Option Sheet :=
  runTraceOk fuel initialSheet (l.map (fun p => Op.set p.1 p.2))

/-- What a recalculation cascade over a function-free sheet preserves: every
store except the DataFrame, and every DataFrame entry no formula cell of `s`
can write to.  (`recalculate_dependents` only rewrites formula cells when
`_functions` is empty.) -/
def recalcPreserved (s : Sheet) (res : Option SErr × Sheet) : Prop :=
  res.2.formulas = s.formulas ∧ res.2.functions = s.functions ∧
  res.2.deps = s.deps ∧ res.2.rdeps = s.rdeps ∧
  res.2.rows = s.rows ∧ res.2.cols = s.cols ∧ res.2.fill = s.fill ∧
  ∀ rc : Nat × String,
    (∀ c fo, alookup c s.formulas = some fo → parseCellAddress c ≠ some rc) →
    alookup rc res.2.data = alookup rc s.data

/-! # Theorems

First a toolbox of small lemmas about the codec loops, then the claims
C1–C10 in the order in which their machinery builds up. -/

/-! ## Base-26 / base-10 loop lemmas (for C9) -/

theorem colLoopF_append : ∀ f i acc, i < f →
    colLoopF f i acc = colLoopF f i [] ++ acc := by
  intro f
  induction f with
  | zero => intro i acc h; omega
  | succ f ih =>
    intro i acc h
    show colLoopF (f + 1) i acc = colLoopF (f + 1) i [] ++ acc
    simp only [colLoopF]
    by_cases hq : i / 26 = 0
    · simp [hq]
    · have hlt : i / 26 - 1 < f := by
        have h1 : i / 26 ≤ i := Nat.div_le_self i 26
        have h2 : i / 26 < i ∨ i = 0 := by
          rcases Nat.eq_zero_or_pos i with h0 | h0
          · right; exact h0
          · left; exact Nat.div_lt_self h0 (by omega)
        omega
      simp only [hq, if_false]
      rw [ih _ _ hlt, ih _ [Char.ofNat (65 + i % 26)] hlt, List.append_assoc]
      rfl

theorem digitsLoopF_append : ∀ f n acc, n < f →
    digitsLoopF f n acc = digitsLoopF f n [] ++ acc := by
  intro f
  induction f with
  | zero => intro n acc h; omega
  | succ f ih =>
    intro n acc h
    simp only [digitsLoopF]
    by_cases hq : n / 10 = 0
    · simp [hq]
    · have hlt : n / 10 < f := by
        have h2 : n / 10 < n := Nat.div_lt_self (by omega) (by omega)
        omega
      simp only [hq, if_false]
      rw [ih _ _ hlt, ih _ [Char.ofNat (48 + n % 10)] hlt, List.append_assoc]
      rfl

theorem charFacts26 : ∀ r < 26,
    (pyUpperChar (Char.ofNat (65 + r))).toNat = 65 + r ∧
    isLetterB (Char.ofNat (65 + r)) = true ∧
    isDigitB (Char.ofNat (65 + r)) = false ∧
    pyUpperChar (Char.ofNat (65 + r)) = Char.ofNat (65 + r) := by
  decide

theorem charFacts10 : ∀ r < 10,
    (Char.ofNat (48 + r)).toNat = 48 + r ∧
    isLetterB (Char.ofNat (48 + r)) = false ∧
    isDigitB (Char.ofNat (48 + r)) = true := by
  decide

theorem letterVal_append_one (xs : List Char) (c : Char) :
    letterVal (xs ++ [c]) = letterVal xs * 26 + ((pyUpperChar c).toNat - 64) := by
  simp [letterVal, List.foldl_append]

theorem colLoopF_val : ∀ f i, i < f →
    letterVal (colLoopF f i []) = i + 1 := by
  intro f
  induction f with
  | zero => intro i h; omega
  | succ f ih =>
    intro i h
    simp only [colLoopF]
    by_cases hq : i / 26 = 0
    · have hi : i < 26 := by
        rcases Nat.lt_or_ge i 26 with h26 | h26
        · exact h26
        · exfalso; have := Nat.div_le_div_right (c := 26) h26; simp at this; omega
      simp only [hq, if_true]
      simp [letterVal, Nat.mod_eq_of_lt hi, (charFacts26 i hi).1]
      omega
    · have hlt : i / 26 - 1 < f := by
        have h2 : i / 26 < i := Nat.div_lt_self (by omega) (by omega)
        omega
      simp only [hq, if_false]
      rw [colLoopF_append f (i / 26 - 1) _ hlt, letterVal_append_one, ih _ hlt]
      have := (charFacts26 (i % 26) (Nat.mod_lt _ (by omega))).1
      rw [this]
      have hd : 26 * (i / 26) + i % 26 = i := Nat.div_add_mod i 26
      have hq1 : 1 ≤ i / 26 := Nat.one_le_iff_ne_zero.mpr hq
      omega

theorem natOfDigits_append_one (xs : List Char) (c : Char) :
    natOfDigits (xs ++ [c]) = natOfDigits xs * 10 + (c.toNat - 48) := by
  simp [natOfDigits, List.foldl_append]

theorem digitsLoopF_val : ∀ f n, n < f →
    natOfDigits (digitsLoopF f n []) = n := by
  intro f
  induction f with
  | zero => intro n h; omega
  | succ f ih =>
    intro n h
    simp only [digitsLoopF]
    by_cases hq : n / 10 = 0
    · have hn : n < 10 := by
        rcases Nat.lt_or_ge n 10 with h10 | h10
        · exact h10
        · exfalso; have := Nat.div_le_div_right (c := 10) h10; simp at this; omega
      simp only [hq, if_true]
      simp [natOfDigits, Nat.mod_eq_of_lt hn, (charFacts10 n hn).1]
    · have hlt : n / 10 < f := by
        have h2 : n / 10 < n := Nat.div_lt_self (by omega) (by omega)
        omega
      simp only [hq, if_false]
      rw [digitsLoopF_append f (n / 10) _ hlt, natOfDigits_append_one, ih _ hlt]
      have := (charFacts10 (n % 10) (Nat.mod_lt _ (by omega))).1
      rw [this]
      have hd : 10 * (n / 10) + n % 10 = n := Nat.div_add_mod n 10
      omega

theorem colLoopF_mem : ∀ f i acc c, c ∈ colLoopF f i acc →
    c ∈ acc ∨ ∃ r, r < 26 ∧ c = Char.ofNat (65 + r) := by
  intro f
  induction f with
  | zero => intro i acc c h; exact Or.inl h
  | succ f ih =>
    intro i acc c h
    simp only [colLoopF] at h
    by_cases hq : i / 26 = 0
    · simp only [hq, if_true, List.mem_cons] at h
      rcases h with h | h
      · exact Or.inr ⟨i % 26, Nat.mod_lt _ (by omega), h⟩
      · exact Or.inl h
    · simp only [hq, if_false] at h
      rcases ih _ _ _ h with h1 | h1
      · rcases List.mem_cons.mp h1 with h2 | h2
        · exact Or.inr ⟨i % 26, Nat.mod_lt _ (by omega), h2⟩
        · exact Or.inl h2
      · exact Or.inr h1

theorem digitsLoopF_mem : ∀ f n acc c, c ∈ digitsLoopF f n acc →
    c ∈ acc ∨ ∃ r, r < 10 ∧ c = Char.ofNat (48 + r) := by
  intro f
  induction f with
  | zero => intro n acc c h; exact Or.inl h
  | succ f ih =>
    intro n acc c h
    simp only [digitsLoopF] at h
    by_cases hq : n / 10 = 0
    · simp only [hq, if_true, List.mem_cons] at h
      rcases h with h | h
      · exact Or.inr ⟨n % 10, Nat.mod_lt _ (by omega), h⟩
      · exact Or.inl h
    · simp only [hq, if_false] at h
      rcases ih _ _ _ h with h1 | h1
      · rcases List.mem_cons.mp h1 with h2 | h2
        · exact Or.inr ⟨n % 10, Nat.mod_lt _ (by omega), h2⟩
        · exact Or.inl h2
      · exact Or.inr h1

theorem colLoopF_ne_nil : ∀ f i acc, i < f → colLoopF f i acc ≠ [] := by
  intro f
  induction f with
  | zero => intro i acc h; omega
  | succ f ih =>
    intro i acc h
    simp only [colLoopF]
    by_cases hq : i / 26 = 0
    · simp [hq]
    · have hlt : i / 26 - 1 < f := by
        have h2 : i / 26 < i := Nat.div_lt_self (by omega) (by omega)
        omega
      simp only [hq, if_false]
      exact ih _ _ hlt

theorem digitsLoopF_ne_nil : ∀ f n acc, n < f → digitsLoopF f n acc ≠ [] := by
  intro f
  induction f with
  | zero => intro n acc h; omega
  | succ f ih =>
    intro n acc h
    simp only [digitsLoopF]
    by_cases hq : n / 10 = 0
    · simp [hq]
    · have hlt : n / 10 < f := by
        have h2 : n / 10 < n := Nat.div_lt_self (by omega) (by omega)
        omega
      simp only [hq, if_false]
      exact ih _ _ hlt

theorem takeWhile_append_all {p : Char → Bool} : ∀ (L D : List Char),
    (∀ c ∈ L, p c = true) →
    (L ++ D).takeWhile p = L ++ D.takeWhile p := by
  intro L
  induction L with
  | nil => intro D h; simp
  | cons a t ih =>
    intro D h
    have ha : p a = true := h a (List.mem_cons_self _ _)
    simp only [List.cons_append, List.takeWhile_cons, ha, if_true]
    rw [ih D (fun c hc => h c (List.mem_cons_of_mem _ hc))]

theorem dropWhile_append_all {p : Char → Bool} : ∀ (L D : List Char),
    (∀ c ∈ L, p c = true) →
    (L ++ D).dropWhile p = D.dropWhile p := by
  intro L
  induction L with
  | nil => intro D h; simp
  | cons a t ih =>
    intro D h
    have ha : p a = true := h a (List.mem_cons_self _ _)
    simp only [List.cons_append, List.dropWhile_cons, ha, if_true]
    exact ih D (fun c hc => h c (List.mem_cons_of_mem _ hc))

theorem map_id_on {f : Char → Char} : ∀ L : List Char,
    (∀ c ∈ L, f c = c) → L.map f = L := by
  intro L
  induction L with
  | nil => intro _; rfl
  | cons a t ih =>
    intro h
    simp only [List.map_cons]
    rw [h a (List.mem_cons_self _ _), ih (fun c hc => h c (List.mem_cons_of_mem _ hc))]

/-! ## C9 — address round-trip -/

/--
C9.  Address round-trip: for every zero-based row and column index up to 500,
formatting with `convert_indices_to_cell_address` and parsing the text back
with `parse_cell_address` recovers the pair — the parsed row number is the
1-based `row + 1` the formatter printed, and `column_letter_to_index` maps
the parsed label back to the original zero-based column, under the bijective
base-26 encoding with no zero digit (A=1 … Z=26, AA=27).
-/
theorem c9_address_roundtrip (row col : Nat) (hrow : row ≤ 500) (hcol : col ≤ 500) :
    parseCellAddress (convertIndicesToCellAddress row col) =
      some (row + 1, indexToColumnLetter col) ∧
    columnLetterToIndex (indexToColumnLetter col) = col := by
  have hLmem : ∀ c ∈ colLoopF (col + 1) col [],
      isLetterB c = true ∧ isDigitB c = false ∧ pyUpperChar c = c := by
    intro c hc
    rcases colLoopF_mem _ _ _ _ hc with h | ⟨r, hr, rfl⟩
    · cases h
    · exact ⟨(charFacts26 r hr).2.1, (charFacts26 r hr).2.2.1, (charFacts26 r hr).2.2.2⟩
  have hDmem : ∀ c ∈ digitsLoopF (row + 2) (row + 1) [],
      isDigitB c = true ∧ isLetterB c = false := by
    intro c hc
    rcases digitsLoopF_mem _ _ _ _ hc with h | ⟨r, hr, rfl⟩
    · cases h
    · exact ⟨(charFacts10 r hr).2.2, (charFacts10 r hr).2.1⟩
  have hLne : colLoopF (col + 1) col [] ≠ [] := colLoopF_ne_nil _ _ _ (Nat.lt_succ_self _)
  have hDne : digitsLoopF (row + 2) (row + 1) [] ≠ [] :=
    digitsLoopF_ne_nil _ _ _ (Nat.lt_succ_self _)
  obtain ⟨d, t, hD⟩ := List.exists_cons_of_ne_nil hDne
  have hdD : d ∈ digitsLoopF (row + 2) (row + 1) [] := by rw [hD]; exact List.mem_cons_self _ _
  have htake : (colLoopF (col + 1) col [] ++ digitsLoopF (row + 2) (row + 1) []).takeWhile
      isLetterB = colLoopF (col + 1) col [] := by
    rw [takeWhile_append_all _ _ (fun c hc => (hLmem c hc).1), hD,
      List.takeWhile_cons_of_neg, List.append_nil]
    simp [(hDmem d hdD).2]
  have hdrop : (colLoopF (col + 1) col [] ++ digitsLoopF (row + 2) (row + 1) []).dropWhile
      isLetterB = digitsLoopF (row + 2) (row + 1) [] := by
    rw [dropWhile_append_all _ _ (fun c hc => (hLmem c hc).1), hD,
      List.dropWhile_cons_of_neg]
    simp [(hDmem d hdD).2]
  constructor
  · show parseCellAddress
      (String.mk (colLoopF (col + 1) col [] ++ digitsLoopF (row + 2) (row + 1) [])) = _
    simp only [parseCellAddress, htake, hdrop]
    rw [if_pos]
    · have hval : natOfDigits (digitsLoopF (row + 2) (row + 1) []) = row + 1 :=
        digitsLoopF_val _ _ (Nat.lt_succ_self _)
      have hmap : (colLoopF (col + 1) col []).map pyUpperChar = colLoopF (col + 1) col [] :=
        map_id_on _ (fun c hc => (hLmem c hc).2.2)
      rw [hval, hmap]
      rfl
    · refine ⟨hLne, hDne, ?_⟩
      exact List.all_eq_true.mpr (fun c hc => (hDmem c hc).1)
  · show columnLetterToIndex (String.mk (colLoopF (col + 1) col [])) = col
    simp only [columnLetterToIndex]
    rw [colLoopF_val _ _ (Nat.lt_succ_self _)]
    omega

/-- Witness for C9 at a concrete input (row 11, column 26, i.e. cell AA12). -/
theorem c9_address_roundtrip_witness :
    11 ≤ 500 ∧ 26 ≤ 500 ∧
    (parseCellAddress (convertIndicesToCellAddress 11 26) =
      some (12, indexToColumnLetter 26) ∧
     columnLetterToIndex (indexToColumnLetter 26) = 26) :=
  ⟨by decide, by decide, c9_address_roundtrip 11 26 (by decide) (by decide)⟩

/-! ## C7 — bounded history -/

theorem saves_succ (maxH n : Nat) :
    savesFrom maxH (n + 1) = saveCurrentState maxH (savesFrom maxH n) n := by
  simp [savesFrom, List.range_succ]

theorem enforce_of_lt (maxH : Nat) : ∀ l : List Nat, l.length < maxH →
    enforceMaxHistory maxH l = l := by
  intro l h
  cases l with
  | nil => rfl
  | cons a t =>
    simp only [enforceMaxHistory]
    rw [if_neg]
    omega

theorem enforce_len_eq (maxH : Nat) (hm : 1 ≤ maxH) :
    ∀ l : List Nat, l.length = maxH → enforceMaxHistory maxH l = l.tail := by
  intro l h
  cases l with
  | nil => simp at h; omega
  | cons a t =>
    simp only [enforceMaxHistory]
    rw [if_pos (by omega)]
    have : t.length < maxH := by simp at h; omega
    rw [enforce_of_lt maxH t this]
    rfl

theorem savesFrom_eq (maxH : Nat) (hm : 1 ≤ maxH) : ∀ n,
    savesFrom maxH n = (List.range n).drop (n - maxH) := by
  intro n
  induction n with
  | zero => simp [savesFrom]
  | succ n ih =>
    rw [saves_succ, ih]
    have hlen : ((List.range n).drop (n - maxH)).length = n - (n - maxH) := by
      simp [List.length_drop]
    by_cases hcase : n < maxH
    · have h0 : n - maxH = 0 := by omega
      have h1 : n + 1 - maxH = 0 := by omega
      simp only [saveCurrentState, h0, h1, List.drop_zero]
      rw [enforce_of_lt maxH _ (by simp; omega)]
      rw [List.range_succ]
    · have hlenm : ((List.range n).drop (n - maxH)).length = maxH := by
        simp [List.length_drop]; omega
      simp only [saveCurrentState]
      rw [enforce_len_eq maxH hm _ hlenm, List.tail_drop]
      rw [List.range_succ, List.drop_append_of_le_length (by simp; omega)]
      have : n + 1 - maxH = n - maxH + 1 := by omega
      rw [this]

/--
Counterexample to C7: starting from an empty history directory with the
default `max_history = 20`, after `max_history + 5 = 25` consecutive
`save_current_state` calls the directory holds `20 = max_history` snapshot
files, not `max_history - 1 = 19` as the claim states.
-/
theorem c7_counterexample :
    (savesFrom 20 25).length = 20 ∧ ¬ (savesFrom 20 25).length = 20 - 1 := by
  decide

/--
C7 (amended).  Starting from an empty history directory, after
`n ≥ max_history` consecutive `save_current_state` calls the directory holds
exactly the `max_history` most recent snapshots (the oldest having been
evicted first), so after `max_history + 5` saves the count stabilizes at
`max_history`, not `max_history - 1`; one further explicit
`enforce_max_history_limit` call (which is what the repository's own test
performs before counting) brings the count to `max_history - 1`.
-/
theorem c7_amended (maxH n : Nat) (hm : 1 ≤ maxH) (hn : maxH ≤ n) :
    savesFrom maxH n = (List.range n).drop (n - maxH) ∧
    (savesFrom maxH n).length = maxH ∧
    (enforceMaxHistory maxH (savesFrom maxH n)).length = maxH - 1 := by
  have heq := savesFrom_eq maxH hm n
  have hlen : (savesFrom maxH n).length = maxH := by
    rw [heq]; simp [List.length_drop]; omega
  refine ⟨heq, hlen, ?_⟩
  rw [enforce_len_eq maxH hm _ hlen, List.length_tail, hlen]

/-- Witness for C7 (amended) at the claim's instance: `max_history = 20`,
`n = 25` saves. -/
theorem c7_amended_witness :
    1 ≤ 20 ∧ 20 ≤ 25 ∧
    (savesFrom 20 25 = (List.range 25).drop 5 ∧
     (savesFrom 20 25).length = 20 ∧
     (enforceMaxHistory 20 (savesFrom 20 25)).length = 19) :=
  ⟨by decide, by decide, c7_amended 20 25 (by decide) (by decide)⟩

/-! ## Association-list lemmas -/

theorem alookup_ainsert_self {κ α : Type} [DecidableEq κ] (k : κ) (v : α) :
    ∀ l, alookup k (ainsert k v l) = some v := by
  intro l
  induction l with
  | nil => simp [ainsert, alookup]
  | cons p t ih =>
    obtain ⟨k', v'⟩ := p
    simp only [ainsert]
    by_cases h : k' = k
    · rw [if_pos h]
      simp [alookup]
    · rw [if_neg h]
      simp only [alookup]
      rw [if_neg h]
      exact ih

theorem alookup_ainsert_ne {κ α : Type} [DecidableEq κ] {k k2 : κ} (v : α)
    (h : k2 ≠ k) : ∀ l, alookup k2 (ainsert k v l) = alookup k2 l := by
  intro l
  have hkk2 : ¬ k = k2 := fun he => h he.symm
  induction l with
  | nil =>
    simp only [ainsert, alookup]
    rw [if_neg hkk2]
  | cons p t ih =>
    obtain ⟨k', v'⟩ := p
    simp only [ainsert]
    by_cases hk : k' = k
    · rw [if_pos hk]
      simp only [alookup]
      rw [if_neg hkk2, if_neg (by rw [hk]; exact hkk2)]
    · rw [if_neg hk]
      simp only [alookup]
      by_cases hk2 : k' = k2
      · rw [if_pos hk2, if_pos hk2]
      · rw [if_neg hk2, if_neg hk2]
        exact ih

theorem alookup_aerase_self {κ α : Type} [DecidableEq κ] (k : κ) :
    ∀ l : List (κ × α), alookup k (aerase k l) = none := by
  intro l
  induction l with
  | nil => rfl
  | cons p t ih =>
    obtain ⟨k', v'⟩ := p
    simp only [aerase]
    by_cases h : k' = k
    · rw [if_pos h]
      exact ih
    · rw [if_neg h]
      simp only [alookup]
      rw [if_neg h]
      exact ih

theorem alookup_aerase_ne {κ α : Type} [DecidableEq κ] {k k2 : κ}
    (h : k2 ≠ k) : ∀ l : List (κ × α), alookup k2 (aerase k l) = alookup k2 l := by
  intro l
  induction l with
  | nil => rfl
  | cons p t ih =>
    obtain ⟨k', v'⟩ := p
    simp only [aerase]
    by_cases hk : k' = k
    · rw [if_pos hk]
      simp only [alookup]
      rw [if_neg (by rw [hk]; exact fun he => h he.symm)]
      exact ih
    · rw [if_neg hk]
      simp only [alookup]
      by_cases hk2 : k' = k2
      · rw [if_pos hk2, if_pos hk2]
      · rw [if_neg hk2, if_neg hk2]
        exact ih

/-! ## What one formula evaluation touches -/

/-- `calculate_formula` never touches the five stores, and only writes the
DataFrame at the position its target parses to. -/
theorem calcFormula_shape (s : Sheet) (t fo : String) :
    (calculateFormula s t fo).2.formulas = s.formulas ∧
    (calculateFormula s t fo).2.functions = s.functions ∧
    (calculateFormula s t fo).2.deps = s.deps ∧
    (calculateFormula s t fo).2.rdeps = s.rdeps ∧
    (calculateFormula s t fo).2.rows = s.rows ∧
    (calculateFormula s t fo).2.cols = s.cols ∧
    (calculateFormula s t fo).2.fill = s.fill ∧
    ∀ rc : Nat × String, parseCellAddress t ≠ some rc →
      alookup rc (calculateFormula s t fo).2.data = alookup rc s.data := by
  have hdir : ∀ v : Val,
      (setCellValueDirect s t v).2.formulas = s.formulas ∧
      (setCellValueDirect s t v).2.functions = s.functions ∧
      (setCellValueDirect s t v).2.deps = s.deps ∧
      (setCellValueDirect s t v).2.rdeps = s.rdeps ∧
      (setCellValueDirect s t v).2.rows = s.rows ∧
      (setCellValueDirect s t v).2.cols = s.cols ∧
      (setCellValueDirect s t v).2.fill = s.fill ∧
      ∀ rc : Nat × String, parseCellAddress t ≠ some rc →
        alookup rc (setCellValueDirect s t v).2.data = alookup rc s.data := by
    intro v
    simp only [setCellValueDirect]
    cases hp : parseCellAddress t with
    | none => exact ⟨rfl, rfl, rfl, rfl, rfl, rfl, rfl, fun _ _ => rfl⟩
    | some rc0 =>
      refine ⟨rfl, rfl, rfl, rfl, rfl, rfl, rfl, fun rc hrc => ?_⟩
      have hne : rc ≠ rc0 := fun he => hrc (he ▸ rfl)
      exact alookup_ainsert_ne v hne _
  simp only [calculateFormula]
  cases evalFormula (namesFor s fo) fo with
  | ok v => exact hdir v
  | error e =>
    cases e with
    | divZero => exact hdir _
    | typeMismatch => exact hdir _
    | generalFault => exact hdir _

/-! ## The recalculation cascade over a function-free sheet -/

theorem recalcPreserved_refl (s : Sheet) (e : Option SErr) : recalcPreserved s (e, s) :=
  ⟨rfl, rfl, rfl, rfl, rfl, rfl, rfl, fun _ _ => rfl⟩

theorem recalcPreserved_trans {s : Sheet} {r1 r2 : Option SErr × Sheet}
    (h1 : recalcPreserved s r1) (h2 : recalcPreserved r1.2 r2) :
    recalcPreserved s r2 := by
  obtain ⟨hf1, hn1, hd1, hr1, hw1, hc1, hl1, hdat1⟩ := h1
  obtain ⟨hf2, hn2, hd2, hr2, hw2, hc2, hl2, hdat2⟩ := h2
  refine ⟨hf2.trans hf1, hn2.trans hn1, hd2.trans hd1, hr2.trans hr1,
    hw2.trans hw1, hc2.trans hc1, hl2.trans hl1, fun rc hrc => ?_⟩
  have hrc1 : ∀ c fo, alookup c r1.2.formulas = some fo → parseCellAddress c ≠ some rc := by
    intro c fo hcf
    exact hrc c fo (by rw [← hf1]; exact hcf)
  exact (hdat2 rc hrc1).trans (hdat1 rc hrc)

/-- The function loop of `recalculate_dependents` over an empty snapshot is a
no-op (up to running out of fuel). -/
theorem recalcFuncLoop_nil_preserved (f : Nat) (s : Sheet) (cell : String) :
    recalcPreserved s (runCall f (.recalcFuncLoop [] cell) s) := by
  cases f with
  | zero => exact recalcPreserved_refl s _
  | succ f => exact recalcPreserved_refl s _

/--
When `_functions` is empty, a recalculation cascade can only rewrite formula
cells: the five stores are untouched, `_functions` stays empty, and every
DataFrame position no formula cell parses to keeps its value.
-/
theorem recalc_preserved : ∀ f : Nat,
    (∀ s cell, s.functions = [] →
      recalcPreserved s (runCall f (.recalcDeps cell) s)) ∧
    (∀ s l, s.functions = [] →
      recalcPreserved s (runCall f (.recalcRdepLoop l) s)) := by
  intro f
  induction f with
  | zero =>
    exact ⟨fun s _ _ => recalcPreserved_refl s _, fun s _ _ => recalcPreserved_refl s _⟩
  | succ f ih =>
    obtain ⟨ihD, ihL⟩ := ih
    constructor
    · intro s cell hfun
      cases hrd : alookup cell s.rdeps with
      | none =>
        have hgoal : runCall (f + 1) (.recalcDeps cell) s =
            runCall f (.recalcFuncLoop s.functions cell) s := by
          show bindE (match alookup cell s.rdeps with
            | some l => runCall f (.recalcRdepLoop l) s
            | none => (none, s)) (fun s1 => runCall f (.recalcFuncLoop s1.functions cell) s1) = _
          rw [hrd]
          all_goals rfl
        rw [hgoal, hfun]
        exact recalcFuncLoop_nil_preserved f s cell
      | some l =>
        have hgoal : runCall (f + 1) (.recalcDeps cell) s =
            bindE (runCall f (.recalcRdepLoop l) s)
              (fun s1 => runCall f (.recalcFuncLoop s1.functions cell) s1) := by
          show bindE (match alookup cell s.rdeps with
            | some l => runCall f (.recalcRdepLoop l) s
            | none => (none, s)) (fun s1 => runCall f (.recalcFuncLoop s1.functions cell) s1) = _
          rw [hrd]
          all_goals rfl
        rw [hgoal]
        cases hL : runCall f (.recalcRdepLoop l) s with
        | mk e1 s1 =>
          have h1 : recalcPreserved s (e1, s1) := hL ▸ ihL s l hfun
          cases e1 with
          | some e => exact h1
          | none =>
            show recalcPreserved s (runCall f (.recalcFuncLoop s1.functions cell) s1)
            have hfun1 : s1.functions = [] := h1.2.1.trans hfun
            rw [hfun1]
            cases hF : runCall f (.recalcFuncLoop [] cell) s1 with
            | mk e2 s2 =>
              have h2 : recalcPreserved s1 (e2, s2) :=
                hF ▸ recalcFuncLoop_nil_preserved f s1 cell
              exact recalcPreserved_trans h1 h2
    · intro s l hfun
      cases l with
      | nil =>
        cases f with
        | zero => exact recalcPreserved_refl s _
        | succ f => exact recalcPreserved_refl s _
      | cons c t =>
        cases hcf : alookup c s.formulas with
        | none =>
          have hgoal : runCall (f + 1) (.recalcRdepLoop (c :: t)) s =
              runCall f (.recalcRdepLoop t) s := by
            show bindE (match alookup c s.formulas with
              | some fo =>
                bindE (calculateFormula s c fo) fun s1 => runCall f (.recalcDeps c) s1
              | none => (none, s)) (fun s1 => runCall f (.recalcRdepLoop t) s1) = _
            rw [hcf]
            all_goals rfl
          rw [hgoal]
          exact ihL s t hfun
        | some fo =>
          have hgoal : runCall (f + 1) (.recalcRdepLoop (c :: t)) s =
              bindE (bindE (calculateFormula s c fo) fun s1 => runCall f (.recalcDeps c) s1)
                (fun s1 => runCall f (.recalcRdepLoop t) s1) := by
            show bindE (match alookup c s.formulas with
              | some fo =>
                bindE (calculateFormula s c fo) fun s1 => runCall f (.recalcDeps c) s1
              | none => (none, s)) (fun s1 => runCall f (.recalcRdepLoop t) s1) = _
            rw [hcf]
            all_goals rfl
          rw [hgoal]
          cases hC : calculateFormula s c fo with
          | mk e0 s0 =>
            have hcshape := calcFormula_shape s c fo
            rw [hC] at hcshape
            have h0 : recalcPreserved s (e0, s0) := by
              refine ⟨hcshape.1, hcshape.2.1, hcshape.2.2.1, hcshape.2.2.2.1,
                hcshape.2.2.2.2.1, hcshape.2.2.2.2.2.1, hcshape.2.2.2.2.2.2.1,
                fun rc hrc => ?_⟩
              exact hcshape.2.2.2.2.2.2.2 rc (hrc c fo hcf)
            cases e0 with
            | some e => exact h0
            | none =>
              show recalcPreserved s (bindE (runCall f (.recalcDeps c) s0)
                (fun s1 => runCall f (.recalcRdepLoop t) s1))
              have hfun0 : s0.functions = [] := h0.2.1.trans hfun
              cases hD : runCall f (.recalcDeps c) s0 with
              | mk e1 s1 =>
                have h1 : recalcPreserved s0 (e1, s1) := hD ▸ ihD s0 c hfun0
                have h01 : recalcPreserved s (e1, s1) :=
                  recalcPreserved_trans h0 h1
                cases e1 with
                | some e => exact h01
                | none =>
                  show recalcPreserved s (runCall f (.recalcRdepLoop t) s1)
                  have hfun1 : s1.functions = [] := h01.2.1.trans hfun
                  cases hT : runCall f (.recalcRdepLoop t) s1 with
                  | mk e2 s2 =>
                    have h2 : recalcPreserved s1 (e2, s2) := hT ▸ ihL s1 t hfun1
                    exact recalcPreserved_trans h01 h2

/-! ## C5 — delete versus writing the empty string -/

/-- Unfolding `delete_cell`: clear the stored value, pop the formula and
function entries, then cascade. -/
theorem del_unfold (g : Nat) (s : Sheet) (cell lab : String) (r : Nat)
    (hp : parseCellAddress cell = some (r, lab)) :
    runCall (g + 1) (.del cell) s = runCall g (.recalcDeps cell)
      { s with data := ainsert (r, lab) Val.pynone s.data,
               formulas := aerase cell s.formulas,
               functions := aerase cell s.functions } := by
  show bindE (setCellValueDirect s cell .pynone) (fun s1 => runCall g (.recalcDeps cell)
    { s1 with formulas := aerase cell s1.formulas,
              functions := aerase cell s1.functions }) = _
  simp only [setCellValueDirect, hp, bindE]

/-- Unfolding `set_cell_value(cell, "")`: expand, delete, then store the
empty string and cascade again. -/
theorem scv_empty_unfold (f : Nat) (s : Sheet) (cell : String) :
    runCall (f + 1) (.scv cell "" none) s =
      bindE (expandSheet s cell) fun s1 =>
      bindE (runCall f (.del cell) s1) fun s2 =>
      bindE (if (alookup cell s2.formulas).isSome ∨ (alookup cell s2.functions).isSome then
               runCall f (.del cell) s2
             else (none, s2)) fun s3 =>
      bindE (setCellValueDirect s3 cell (Val.str "")) fun s4 =>
      runCall f (.recalcDeps cell) s4 := by
  rfl

/--
Counterexample to C5: on the sheet holding `A1 = 7`, `delete_cell("A1")`
stores Python `None` in A1 while `set_cell_value("A1", "")` stores the empty
string, so the two engine states differ.
-/
theorem c5_counterexample :
    alookup (1, "A")
      (deleteCell 40 ((runSetTraceOk 40 [("A1", "7")]).getD initialSheet) "A1").2.data =
      some Val.pynone ∧
    alookup (1, "A")
      (setCellValue 40 ((runSetTraceOk 40 [("A1", "7")]).getD initialSheet) "A1" "").2.data =
      some (Val.str "") ∧
    (deleteCell 40 ((runSetTraceOk 40 [("A1", "7")]).getD initialSheet) "A1").2 ≠
      (setCellValue 40 ((runSetTraceOk 40 [("A1", "7")]).getD initialSheet) "A1" "").2 := by
  refine ⟨by decide, by decide, by decide⟩

/--
C5 (amended).  On a sheet without function cells and within the 500×500 cap,
for an in-bounds address whose position no remaining formula cell writes to,
`delete_cell(cell)` and `set_cell_value(cell, "")` agree on the formula
store, the function store and both dependency maps; the stored value of the
target cell differs — `None` after `delete_cell`, the empty string `""`
after `set_cell_value(cell, "")` — and both of those are read as `0` when a
dependent formula is recalculated.  (The empty write runs `delete_cell` and
then additionally stores `""` and cascades once more; the two runs are
compared with matching recursion budgets.)
-/
theorem c5_amended (fuel : Nat) (s : Sheet) (cell lab : String) (r : Nat)
    (hfun : s.functions = [])
    (hp : parseCellAddress cell = some (r, lab))
    (hr2 : r ≤ s.rows) (hcc : letterVal lab.data ≤ s.cols)
    (hrow500 : s.rows ≤ 500) (hcol500 : s.cols ≤ 500)
    (hnof : ∀ c fo, alookup c (aerase cell s.formulas) = some fo →
      parseCellAddress c ≠ some (r, lab))
    (hok : (deleteCell fuel s cell).1 = none) :
    (setCellValue (fuel + 1) s cell "").2.formulas = (deleteCell fuel s cell).2.formulas ∧
    (setCellValue (fuel + 1) s cell "").2.functions = (deleteCell fuel s cell).2.functions ∧
    (setCellValue (fuel + 1) s cell "").2.deps = (deleteCell fuel s cell).2.deps ∧
    (setCellValue (fuel + 1) s cell "").2.rdeps = (deleteCell fuel s cell).2.rdeps ∧
    alookup (r, lab) (deleteCell fuel s cell).2.data = some Val.pynone ∧
    alookup (r, lab) (setCellValue (fuel + 1) s cell "").2.data = some (Val.str "") ∧
    pyTruthy Val.pynone = pyTruthy (Val.str "") := by
  -- the delete path
  cases fuel with
  | zero => exact absurd hok (by simp [deleteCell, runCall])
  | succ g =>
  have hdel : runCall (g + 1) (.del cell) s = runCall g (.recalcDeps cell)
      { s with data := ainsert (r, lab) Val.pynone s.data,
               formulas := aerase cell s.formulas,
               functions := aerase cell s.functions } := del_unfold g s cell lab r hp
  have hBfun : ({ s with
      data := ainsert (r, lab) Val.pynone s.data,
      formulas := aerase cell s.formulas,
      functions := aerase cell s.functions } : Sheet).functions = [] := by
    show aerase cell s.functions = []
    rw [hfun]
    rfl
  have hDpres := (recalc_preserved g).1
    { s with data := ainsert (r, lab) Val.pynone s.data,
             formulas := aerase cell s.formulas,
             functions := aerase cell s.functions } cell hBfun
  -- the expansion is the identity for an in-bounds cell of a capped sheet
  have hexp : expandSheet s cell = (none, s) := by
    simp only [expandSheet, hp]
    rw [if_neg (by omega)]
    have h1 : max s.rows r = s.rows := Nat.max_eq_left hr2
    have h2 : max s.cols (letterVal lab.data) = s.cols := Nat.max_eq_left hcc
    rw [h1, h2]
  -- the empty write re-runs the same delete, skips the second delete, then
  -- stores "" and cascades
  have hscv := scv_empty_unfold (g + 1) s cell
  rw [hexp] at hscv
  have hdelD : deleteCell (g + 1) s cell = runCall (g + 1) (.del cell) s := rfl
  rw [hdel] at hdelD
  cases hD : runCall g (.recalcDeps cell)
      { s with data := ainsert (r, lab) Val.pynone s.data,
               formulas := aerase cell s.formulas,
               functions := aerase cell s.functions } with
  | mk eD sD =>
    rw [hD] at hDpres hdelD
    obtain ⟨hDf, hDn, hDd, hDr, _, _, _, hDdata⟩ := hDpres
    have hsDform : sD.formulas = aerase cell s.formulas := hDf
    have hsDfun : sD.functions = [] := hDn.trans hBfun
    have heD : eD = none := by
      have : (deleteCell (g + 1) s cell).1 = eD := by rw [hdelD]
      rw [hok] at this
      exact this.symm
    subst heD
    -- E path continues from sD
    have hE : runCall (g + 2) (.scv cell "" none) s =
        runCall (g + 1) (.recalcDeps cell)
          { sD with data := ainsert (r, lab) (Val.str "") sD.data } := by
      rw [hscv]
      show bindE (runCall (g + 1) (.del cell) s) _ = _
      rw [hdel, hD]
      show bindE (if (alookup cell sD.formulas).isSome ∨ (alookup cell sD.functions).isSome
        then runCall (g + 1) (.del cell) sD else (none, sD)) _ = _
      rw [if_neg]
      · show bindE (setCellValueDirect sD cell (Val.str "")) _ = _
        simp only [setCellValueDirect, hp, bindE]
      · rw [hsDform, hsDfun, alookup_aerase_self]
        simp [alookup]
    have hE0fun : ({ sD with data := ainsert (r, lab) (Val.str "") sD.data } : Sheet).functions
        = [] := hsDfun
    have hEpres := (recalc_preserved (g + 1)).1
      { sD with data := ainsert (r, lab) (Val.str "") sD.data } cell hE0fun
    cases hEr : runCall (g + 1) (.recalcDeps cell)
        { sD with data := ainsert (r, lab) (Val.str "") sD.data } with
    | mk eE sE =>
      rw [hEr] at hEpres hE
      obtain ⟨hEf, hEn, hEd, hEr2, _, _, _, hEdata⟩ := hEpres
      have hsetE : setCellValue (g + 1 + 1) s cell "" = (eE, sE) := hE
      have hdelE : deleteCell (g + 1) s cell = (none, sD) := hdelD
      rw [hsetE, hdelE]
      refine ⟨?_, ?_, ?_, ?_, ?_, ?_, rfl⟩
      · show sE.formulas = sD.formulas
        rw [hEf]
      · show sE.functions = sD.functions
        rw [hEn, hsDfun]
      · show sE.deps = sD.deps
        rw [hEd]
      · show sE.rdeps = sD.rdeps
        rw [hEr2]
      · show alookup (r, lab) sD.data = some Val.pynone
        have hprot : ∀ c fo, alookup c ({ s with
            data := ainsert (r, lab) Val.pynone s.data,
            formulas := aerase cell s.formulas,
            functions := aerase cell s.functions } : Sheet).formulas = some fo →
            parseCellAddress c ≠ some (r, lab) := hnof
        have := hDdata (r, lab) hprot
        rw [this]
        show alookup (r, lab) (ainsert (r, lab) Val.pynone s.data) = some Val.pynone
        exact alookup_ainsert_self _ _ _
      · show alookup (r, lab) sE.data = some (Val.str "")
        have hprot : ∀ c fo, alookup c ({ sD with
            data := ainsert (r, lab) (Val.str "") sD.data } : Sheet).formulas = some fo →
            parseCellAddress c ≠ some (r, lab) := by
          intro c fo hcf
          exact hnof c fo (by rw [← hsDform]; exact hcf)
        have := hEdata (r, lab) hprot
        rw [this]
        show alookup (r, lab) (ainsert (r, lab) (Val.str "") sD.data) = some (Val.str "")
        exact alookup_ainsert_self _ _ _

/-- Witness for C5 (amended) on the one-cell sheet holding `A1 = 7`. -/
theorem c5_amended_witness :
    ((setCellValue 6 ((runSetTraceOk 40 [("A1", "7")]).getD initialSheet) "A1" "").2.formulas =
      (deleteCell 5 ((runSetTraceOk 40 [("A1", "7")]).getD initialSheet) "A1").2.formulas ∧
     (setCellValue 6 ((runSetTraceOk 40 [("A1", "7")]).getD initialSheet) "A1" "").2.functions =
      (deleteCell 5 ((runSetTraceOk 40 [("A1", "7")]).getD initialSheet) "A1").2.functions ∧
     (setCellValue 6 ((runSetTraceOk 40 [("A1", "7")]).getD initialSheet) "A1" "").2.deps =
      (deleteCell 5 ((runSetTraceOk 40 [("A1", "7")]).getD initialSheet) "A1").2.deps ∧
     (setCellValue 6 ((runSetTraceOk 40 [("A1", "7")]).getD initialSheet) "A1" "").2.rdeps =
      (deleteCell 5 ((runSetTraceOk 40 [("A1", "7")]).getD initialSheet) "A1").2.rdeps ∧
     alookup (1, "A")
       (deleteCell 5 ((runSetTraceOk 40 [("A1", "7")]).getD initialSheet) "A1").2.data =
       some Val.pynone ∧
     alookup (1, "A")
       (setCellValue 6 ((runSetTraceOk 40 [("A1", "7")]).getD initialSheet) "A1" "").2.data =
       some (Val.str "") ∧
     pyTruthy Val.pynone = pyTruthy (Val.str "")) :=
  c5_amended 5 ((runSetTraceOk 40 [("A1", "7")]).getD initialSheet) "A1" "A" 1
    (by decide) (by decide) (by decide) (by decide) (by decide) (by decide)
    (fun c fo h => Option.noConfusion h) (by decide)

/-! ## C2 — cycle-rejection atomicity -/

/--
Counterexample to C2: over the trace `A1 := "5"`, `A2 := "=A1"` (both
accepted), the write `A2 := "=A2*2"` is rejected with `CircularDependency` —
but `set_cell_value` already deleted A2's old formula and stored value
before running the cycle check, so the engine state *is* mutated by the
failed write: A2's formula entry is gone and its value is `None` instead
of `5`.
-/
theorem c2_counterexample :
    alookup "A2" ((runSetTraceOk 40 [("A1", "5"), ("A2", "=A1")]).getD
      initialSheet).formulas = some "A1" ∧
    alookup (2, "A") ((runSetTraceOk 40 [("A1", "5"), ("A2", "=A1")]).getD
      initialSheet).data = some (Val.num (pnInt 5)) ∧
    (setCellValue 40 ((runSetTraceOk 40 [("A1", "5"), ("A2", "=A1")]).getD
      initialSheet) "A2" "=A2*2").1 = some SErr.circularDependency ∧
    alookup "A2" (setCellValue 40 ((runSetTraceOk 40 [("A1", "5"), ("A2", "=A1")]).getD
      initialSheet) "A2" "=A2*2").2.formulas = none ∧
    alookup (2, "A") (setCellValue 40 ((runSetTraceOk 40 [("A1", "5"), ("A2", "=A1")]).getD
      initialSheet) "A2" "=A2*2").2.data = some Val.pynone := by
  refine ⟨by decide, by decide, by decide, by decide, by decide⟩

/--
C2 (amended).  When the target cell has *no existing formula or function
entry*, a formula write rejected by the cycle check fails with
`CircularDependency` and mutates nothing except growing the sheet to include
the target cell: the DataFrame contents, formula store, function store and
both dependency maps are exactly those before the write.  (When the target
does have an old formula or function entry, the failed write still clears
it — see the counterexample.)  In particular, after `A1 := "=A2*2"`,
writing `A2 := "=A1*2"` fails and leaves A2's contents, formula entry,
function entry and dependency edges unchanged.
-/
theorem c2_amended (fuel : Nat) (s : Sheet) (cell value lab : String) (r : Nat)
    (hf : 1 ≤ fuel)
    (hp : parseCellAddress cell = some (r, lab))
    (hszc : letterVal lab.data ≤ 500) (hszr : r ≤ 500)
    (hnoF : alookup cell s.formulas = none) (hnoFn : alookup cell s.functions = none)
    (hne : value ≠ "")
    (hfm : startsWithEq value = true)
    (hcyc : circCheck s.deps cell (findRefsStr (String.mk (value.data.drop 1))) =
      some SErr.circularDependency) :
    setCellValue fuel s cell value =
      (some SErr.circularDependency,
        { s with rows := max s.rows r, cols := max s.cols (letterVal lab.data) }) := by
  obtain ⟨f, rfl⟩ : ∃ f, fuel = f + 1 := ⟨fuel - 1, by omega⟩
  have hexp : expandSheet s cell =
      (none, { s with rows := max s.rows r, cols := max s.cols (letterVal lab.data) }) := by
    simp only [expandSheet, hp]
    rw [if_neg (by omega)]
  show bindE (expandSheet s cell) _ = _
  rw [hexp]
  simp only [bindE]
  rw [if_neg hne]
  simp only [bindE]
  rw [if_neg (by
    show ¬ ((alookup cell s.formulas).isSome = true ∨ (alookup cell s.functions).isSome = true)
    rw [hnoF, hnoFn]
    simp)]
  simp only [bindE]
  rw [if_pos hfm]
  have hcyc2 : circCheck
      ({ s with rows := max s.rows r, cols := max s.cols (letterVal lab.data) } : Sheet).deps
      cell (findRefsStr (String.mk (value.data.drop 1))) = some SErr.circularDependency := hcyc
  rw [hcyc2]

/-- Witness for C2 (amended): the claim's own scenario.  After
`A1 := "=A2*2"` on a fresh engine, the write `A2 := "=A1*2"` is rejected
with `CircularDependency` and only the row count grows (from 1 to 2). -/
theorem c2_amended_witness :
    setCellValue 40 (setCellValue 40 initialSheet "A1" "=A2*2").2 "A2" "=A1*2" =
      (some SErr.circularDependency,
        { (setCellValue 40 initialSheet "A1" "=A2*2").2 with
            rows := max (setCellValue 40 initialSheet "A1" "=A2*2").2.rows 2,
            cols := max (setCellValue 40 initialSheet "A1" "=A2*2").2.cols
              (letterVal ("A".data)) }) :=
  c2_amended 40 (setCellValue 40 initialSheet "A1" "=A2*2").2 "A2" "=A1*2" "A" 2
    (by decide) (by decide) (by decide) (by decide) (by decide) (by decide)
    (by decide) (by decide) (by decide)

/-! ## C6 — formula-failure propagation -/

/--
Counterexample to C6: with `A1 = 0`, the write `B1 := "=10/A1"` stores the
`div/0 Error` sentinel in B1 and returns *without* raising — the
`ZeroDivisionError` branch of `calculate_formula` does not re-raise, so no
`FormulaEvaluationFailed` signal reaches the caller, contradicting the
claim that division by zero both stores its sentinel and propagates.
-/
theorem c6_counterexample :
    (setCellValue 40 ((runSetTraceOk 40 [("A1", "0")]).getD initialSheet)
      "B1" "=10/A1").1 = none ∧
    alookup (1, "B") (setCellValue 40 ((runSetTraceOk 40 [("A1", "0")]).getD initialSheet)
      "B1" "=10/A1").2.data = some (Val.str "div/0 Error") := by
  refine ⟨by decide, by decide⟩

/--
C6 (amended).  `calculate_formula` writes the error sentinel of a failed
evaluation into the target cell in every failure mode, but the
`FormulaEvaluationFailed` signal propagates to the caller for only *two* of
the four sentinel kinds — operand-type mismatch (`Value Error`) and general
failure (`General Error`).  Division by zero stores `div/0 Error` silently,
and an out-of-bounds reference never raises at all (the `#REF!` string is
substituted as a value during resolution).
-/
theorem c6_amended (s : Sheet) (target formula : String) (rc : Nat × String)
    (hp : parseCellAddress target = some rc) :
    ((calculateFormula s target formula).1 = some SErr.formulaEvalFailed ↔
      (evalFormula (namesFor s formula) formula = .error .typeMismatch ∨
       evalFormula (namesFor s formula) formula = .error .generalFault)) ∧
    (evalFormula (namesFor s formula) formula = .error .divZero →
      calculateFormula s target formula =
        (none, { s with data := ainsert rc (Val.str "div/0 Error") s.data })) ∧
    (evalFormula (namesFor s formula) formula = .error .typeMismatch →
      calculateFormula s target formula =
        (some SErr.formulaEvalFailed,
          { s with data := ainsert rc (Val.str "Value Error") s.data })) ∧
    (evalFormula (namesFor s formula) formula = .error .generalFault →
      calculateFormula s target formula =
        (some SErr.formulaEvalFailed,
          { s with data := ainsert rc (Val.str "General Error") s.data })) := by
  cases heval : evalFormula (namesFor s formula) formula with
  | ok v =>
    refine ⟨?_, ?_, ?_, ?_⟩
    · simp [calculateFormula, heval, setCellValueDirect, hp]
    · intro h; cases h
    · intro h; cases h
    · intro h; cases h
  | error e =>
    cases e with
    | divZero =>
      refine ⟨?_, ?_, ?_, ?_⟩
      · simp [calculateFormula, heval, setCellValueDirect, hp]
      · intro _
        simp only [calculateFormula, heval, setCellValueDirect, hp]
      · intro h; cases h
      · intro h; cases h
    | typeMismatch =>
      refine ⟨?_, ?_, ?_, ?_⟩
      · simp [calculateFormula, heval, setCellValueDirect, hp]
      · intro h; cases h
      · intro _
        simp only [calculateFormula, heval, setCellValueDirect, hp]
      · intro h; cases h
    | generalFault =>
      refine ⟨?_, ?_, ?_, ?_⟩
      · simp [calculateFormula, heval, setCellValueDirect, hp]
      · intro h; cases h
      · intro h; cases h
      · intro _
        simp only [calculateFormula, heval, setCellValueDirect, hp]

/-- Witness for C6 (amended) at the claim's own instance: `A1 = 0` and the
formula `10/A1` divides by zero. -/
theorem c6_amended_witness :
    (((calculateFormula ((runSetTraceOk 40 [("A1", "0")]).getD initialSheet)
        "B1" "10/A1").1 = some SErr.formulaEvalFailed ↔
      (evalFormula (namesFor ((runSetTraceOk 40 [("A1", "0")]).getD initialSheet) "10/A1")
        "10/A1" = .error .typeMismatch ∨
       evalFormula (namesFor ((runSetTraceOk 40 [("A1", "0")]).getD initialSheet) "10/A1")
        "10/A1" = .error .generalFault)) ∧
     (evalFormula (namesFor ((runSetTraceOk 40 [("A1", "0")]).getD initialSheet) "10/A1")
        "10/A1" = .error .divZero →
      calculateFormula ((runSetTraceOk 40 [("A1", "0")]).getD initialSheet) "B1" "10/A1" =
        (none, { (runSetTraceOk 40 [("A1", "0")]).getD initialSheet with
          data := ainsert (1, "B") (Val.str "div/0 Error")
            ((runSetTraceOk 40 [("A1", "0")]).getD initialSheet).data })) ∧
     (evalFormula (namesFor ((runSetTraceOk 40 [("A1", "0")]).getD initialSheet) "10/A1")
        "10/A1" = .error .typeMismatch →
      calculateFormula ((runSetTraceOk 40 [("A1", "0")]).getD initialSheet) "B1" "10/A1" =
        (some SErr.formulaEvalFailed,
          { (runSetTraceOk 40 [("A1", "0")]).getD initialSheet with
            data := ainsert (1, "B") (Val.str "Value Error")
              ((runSetTraceOk 40 [("A1", "0")]).getD initialSheet).data })) ∧
     (evalFormula (namesFor ((runSetTraceOk 40 [("A1", "0")]).getD initialSheet) "10/A1")
        "10/A1" = .error .generalFault →
      calculateFormula ((runSetTraceOk 40 [("A1", "0")]).getD initialSheet) "B1" "10/A1" =
        (some SErr.formulaEvalFailed,
          { (runSetTraceOk 40 [("A1", "0")]).getD initialSheet with
            data := ainsert (1, "B") (Val.str "General Error")
              ((runSetTraceOk 40 [("A1", "0")]).getD initialSheet).data }))) :=
  c6_amended ((runSetTraceOk 40 [("A1", "0")]).getD initialSheet) "B1" "10/A1" (1, "B")
    (by decide)

/-! ## C4 — delete cascades -/

/--
Counterexample to C4: with `A1 = 10` and `A2 = "=A1*2"` (A2 showing 20),
after `delete_cell("A1")` the dependent A2 recomputes to the number `0` —
not to the `#REF!` reference-error sentinel the claim requires.  (The
deleted cell reads back as `None`, which reference resolution replaces
with `0`.)
-/
theorem c4_counterexample :
    (runTraceOk 40 initialSheet [Op.set "A1" "10", Op.set "A2" "=A1*2", Op.del "A1"]).map
      (fun s => alookup (2, "A") s.data) = some (some (Val.num (pnInt 0))) ∧
    ¬ (runTraceOk 40 initialSheet [Op.set "A1" "10", Op.set "A2" "=A1*2", Op.del "A1"]).map
      (fun s => alookup (2, "A") s.data) = some (some (Val.str "#REF!")) := by
  refine ⟨by decide, by decide⟩

/--
C4 (amended).  With `A1 = 10` and `A2 = "=A1*2"` (so A2 shows 20), after
`delete_cell("A1")` the cascade recomputes A2 with the deleted referent
resolved as 0, so A2 holds the number 0 — neither the stale 20 nor a
reference-error sentinel.
-/
theorem c4_amended :
    (runTraceOk 40 initialSheet [Op.set "A1" "10", Op.set "A2" "=A1*2"]).map
      (fun s => alookup (2, "A") s.data) = some (some (Val.num (pnInt 20))) ∧
    (runTraceOk 40 initialSheet [Op.set "A1" "10", Op.set "A2" "=A1*2", Op.del "A1"]).map
      (fun s => alookup (1, "A") s.data) = some (some Val.pynone) ∧
    (runTraceOk 40 initialSheet [Op.set "A1" "10", Op.set "A2" "=A1*2", Op.del "A1"]).map
      (fun s => alookup (2, "A") s.data) = some (some (Val.num (pnInt 0))) := by
  refine ⟨by decide, by decide, by decide⟩

/-! ## Unfolding `execute_function` up to its validation ladder -/

theorem exec_unfold (f : Nat) (s : Sheet) (cell fn r1 r2 : String) :
    runCall (f + 1) (.exec cell fn (r1, r2)) s =
      (match parseCellAddress cell with
      | none => (some SErr.invalidAddress, s)
      | some _ =>
        if r1 = "" ∨ r2 = "" then (some SErr.badFunctionArgs, s)
        else
          match isValidRange r1 r2 with
          | none => (some SErr.invalidAddress, s)
          | some false => (some SErr.invalidRange, s)
          | some true =>
            match cellInFunctionRange cell (r1, r2) with
            | none => (some SErr.invalidAddress, s)
            | some true => (some SErr.targetCellInRange, s)
            | some false =>
              match functionDispatch s fn (r1, r2) with
              | none => (some SErr.unsupportedFunction, s)
              | some none => (some SErr.invalidAddress, s)
              | some (some result) => runCall f (.fhandle cell fn (r1, r2) result) s) := by
  rfl

/-- `execute_function` rejects an invalid range with `InvalidRange`, before
any mutation. -/
theorem exec_invalidRange (f : Nat) (s : Sheet) (cell fn r1 r2 : String)
    (pr : Nat × String)
    (hpr : parseCellAddress cell = some pr) (h1 : r1 ≠ "") (h2 : r2 ≠ "")
    (hvr : isValidRange r1 r2 = some false) :
    runCall (f + 1) (.exec cell fn (r1, r2)) s = (some SErr.invalidRange, s) := by
  rw [exec_unfold]
  simp only [hpr]
  rw [if_neg (by simp [h1, h2])]
  simp only [hvr]

/-- `execute_function` rejects a target cell lying inside its own (valid)
range, before any mutation. -/
theorem exec_targetInRange (f : Nat) (s : Sheet) (cell fn r1 r2 : String)
    (pr : Nat × String)
    (hpr : parseCellAddress cell = some pr) (h1 : r1 ≠ "") (h2 : r2 ≠ "")
    (hvr : isValidRange r1 r2 = some true)
    (hin : cellInFunctionRange cell (r1, r2) = some true) :
    runCall (f + 1) (.exec cell fn (r1, r2)) s = (some SErr.targetCellInRange, s) := by
  rw [exec_unfold]
  simp only [hpr]
  rw [if_neg (by simp [h1, h2])]
  simp only [hvr, hin]

/-! ## C8 — range validity -/

/--
Counterexample to C8: `is_valid_range("B1", "AA1")` returns `False`, even
though B's column position 1 is ≤ AA's position 26 (and the rows agree) —
the code compares the column *labels* as Python strings, and `"B" <= "AA"`
is false lexicographically.
-/
theorem c8_counterexample :
    parseCellAddress "B1" = some (1, "B") ∧
    parseCellAddress "AA1" = some (1, "AA") ∧
    (1 ≤ 1 ∧ columnLetterToIndex "B" ≤ columnLetterToIndex "AA") ∧
    isValidRange "B1" "AA1" = some false := by
  refine ⟨by decide, by decide, ⟨by decide, by decide⟩, by decide⟩

/--
C8 (amended).  For every pair of parseable addresses, `is_valid_range`
returns true exactly when the start row number is ≤ the end row number and
the start column *label* is ≤ the end column label in Python's lexicographic
string order (not column-position order); an aggregate function invoked over
a range failing this test raises `InvalidRange` before mutating anything;
and Sum over the valid range (A1, A3) holding 10, 20, 30 evaluates to 60.
-/
theorem c8_amended :
    (∀ startCell endCell sr sc er ec,
      parseCellAddress startCell = some (sr, sc) →
      parseCellAddress endCell = some (er, ec) →
      (isValidRange startCell endCell = some true ↔ (sr ≤ er ∧ pyStrLe sc ec = true))) ∧
    (∀ fuel s cell fn r1 r2, 1 ≤ fuel →
      (parseCellAddress cell).isSome = true →
      r1 ≠ "" → r2 ≠ "" →
      isValidRange r1 r2 = some false →
      executeFunction fuel s cell fn (r1, r2) = (some SErr.invalidRange, s)) ∧
    ((runTraceOk 40 initialSheet [Op.set "A1" "10", Op.set "A2" "20", Op.set "A3" "30",
        Op.exec "B1" "Sum" ("A1", "A3")]).map (fun s => alookup (1, "B") s.data) =
      some (some (Val.num (pnInt 60)))) := by
  refine ⟨?_, ?_, by decide⟩
  · intro startCell endCell sr sc er ec h1 h2
    simp [isValidRange, h1, h2]
  · intro fuel s cell fn r1 r2 hf hpc h1 h2 hvr
    obtain ⟨f, rfl⟩ : ∃ f, fuel = f + 1 := ⟨fuel - 1, by omega⟩
    obtain ⟨pr, hpr⟩ := Option.isSome_iff_exists.mp hpc
    exact exec_invalidRange f s cell fn r1 r2 pr hpr h1 h2 hvr

/-- Witness for C8 (amended): the lexicographic characterization at
("A1", "A3"), the `InvalidRange` rejection of Sum over ("A2", "A1"), and
the concrete Sum-over-(A1, A3) part. -/
theorem c8_amended_witness :
    (isValidRange "A1" "A3" = some true ↔ (1 ≤ 3 ∧ pyStrLe "A" "A" = true)) ∧
    executeFunction 5 initialSheet "B1" "Sum" ("A2", "A1") =
      (some SErr.invalidRange, initialSheet) :=
  ⟨c8_amended.1 "A1" "A3" 1 "A" 3 "A" (by decide) (by decide),
   c8_amended.2.1 5 initialSheet "B1" "Sum" "A2" "A1" (by decide) (by decide)
     (by decide) (by decide) (by decide)⟩

/-! ## C10 — a function cell can never lie inside its own range -/

/--
C10.  Whenever `execute_function(cell, fn, range)` is invoked with the
target cell inside the rectangle of `range` (rows and columns both within
it, as `cell_in_function_range` computes), the call raises an error before
any aggregate is computed and leaves the engine state completely unchanged:
either the range is additionally invalid (raising `InvalidRange`) or the
in-range check itself raises its `ValueError`.
-/
theorem c10_target_in_own_range (fuel : Nat) (s : Sheet) (cell fn : String)
    (r : String × String) (hf : 1 ≤ fuel)
    (hin : cellInFunctionRange cell r = some true) :
    (executeFunction fuel s cell fn r).2 = s ∧
    (executeFunction fuel s cell fn r).1 ≠ none := by
  obtain ⟨f, rfl⟩ : ∃ f, fuel = f + 1 := ⟨fuel - 1, by omega⟩
  obtain ⟨r1, r2⟩ := r
  have hp1 : ∃ p, parseCellAddress r1 = some p := by
    cases h1 : parseCellAddress r1 with
    | none => rw [cellInFunctionRange] at hin; rw [h1] at hin; cases hin
    | some p => exact ⟨p, rfl⟩
  have hp2 : ∃ p, parseCellAddress r2 = some p := by
    cases h2 : parseCellAddress r2 with
    | none =>
      obtain ⟨⟨a1, b1⟩, hpp⟩ := hp1
      rw [cellInFunctionRange] at hin; rw [hpp, h2] at hin
      cases hin
    | some p => exact ⟨p, rfl⟩
  have hp3 : ∃ p, parseCellAddress cell = some p := by
    cases h3 : parseCellAddress cell with
    | none =>
      obtain ⟨⟨a1, b1⟩, hpp1⟩ := hp1
      obtain ⟨⟨a2, b2⟩, hpp2⟩ := hp2
      rw [cellInFunctionRange] at hin; rw [hpp1, hpp2, h3] at hin
      cases hin
    | some p => exact ⟨p, rfl⟩
  obtain ⟨⟨a1, b1⟩, hpp1⟩ := hp1
  obtain ⟨⟨a2, b2⟩, hpp2⟩ := hp2
  obtain ⟨⟨a3, b3⟩, hpp3⟩ := hp3
  have hne1 : r1 ≠ "" := by
    intro h
    rw [h] at hpp1
    cases hpp1
  have hne2 : r2 ≠ "" := by
    intro h
    rw [h] at hpp2
    cases hpp2
  have hvr : isValidRange r1 r2 = some (decide (a1 ≤ a2) && pyStrLe b1 b2) := by
    simp [isValidRange, hpp1, hpp2]
  cases hb : (decide (a1 ≤ a2) && pyStrLe b1 b2) with
  | false =>
    have := exec_invalidRange f s cell fn r1 r2 (a3, b3) hpp3 hne1 hne2 (by rw [hvr, hb])
    show (runCall (f + 1) (.exec cell fn (r1, r2)) s).2 = s ∧
      (runCall (f + 1) (.exec cell fn (r1, r2)) s).1 ≠ none
    rw [this]
    exact ⟨rfl, by simp⟩
  | true =>
    have := exec_targetInRange f s cell fn r1 r2 (a3, b3) hpp3 hne1 hne2 (by rw [hvr, hb]) hin
    show (runCall (f + 1) (.exec cell fn (r1, r2)) s).2 = s ∧
      (runCall (f + 1) (.exec cell fn (r1, r2)) s).1 ≠ none
    rw [this]
    exact ⟨rfl, by simp⟩

/-- Witness for C10: `execute_function("A2", "Sum", ("A1", "A3"))` has its
target inside its own range, raises, and leaves the fresh engine unchanged. -/
theorem c10_target_in_own_range_witness :
    (executeFunction 5 initialSheet "A2" "Sum" ("A1", "A3")).2 = initialSheet ∧
    (executeFunction 5 initialSheet "A2" "Sum" ("A1", "A3")).1 ≠ none :=
  c10_target_in_own_range 5 initialSheet "A2" "Sum" ("A1", "A3") (by decide) (by decide)

/-! ## C3 — growth of the reverse-dependency map -/

theorem setAdd_mem_self (a : String) (l : List String) : a ∈ setAdd a l := by
  unfold setAdd
  split
  · assumption
  · exact List.mem_append_right _ (List.mem_singleton.mpr rfl)

theorem setAdd_mem_of_mem {x : String} {l : List String} (a : String) (h : x ∈ l) :
    x ∈ setAdd a l := by
  unfold setAdd
  split
  · exact h
  · exact List.mem_append_left _ h

theorem setAdd_cases {x a : String} {l : List String} (h : x ∈ setAdd a l) :
    x = a ∨ x ∈ l := by
  unfold setAdd at h
  split at h
  · exact Or.inr h
  · rcases List.mem_append.mp h with h2 | h2
    · exact Or.inr h2
    · exact Or.inl (List.mem_singleton.mp h2)

theorem rdepsGrow_refl (m : List (String × List String)) : rdepsGrow m m :=
  fun _ l h => ⟨l, h, fun _ hx => hx⟩

theorem rdepsGrow_trans {m1 m2 m3 : List (String × List String)}
    (h1 : rdepsGrow m1 m2) (h2 : rdepsGrow m2 m3) : rdepsGrow m1 m3 := by
  intro b l hl
  obtain ⟨l2, hl2, hs2⟩ := h1 b l hl
  obtain ⟨l3, hl3, hs3⟩ := h2 b l2 hl2
  exact ⟨l3, hl3, fun x hx => hs3 x (hs2 x hx)⟩

theorem addRdep_grow (d c : String) (m : List (String × List String)) :
    rdepsGrow m (addRdep d c m) := by
  intro b l hl
  unfold addRdep
  cases hd : alookup d m with
  | some l0 =>
    by_cases hbd : b = d
    · subst hbd
      rw [hl] at hd
      have hll0 : l = l0 := Option.some.inj hd
      subst hll0
      exact ⟨setAdd c l, alookup_ainsert_self b _ m, fun x hx => setAdd_mem_of_mem c hx⟩
    · exact ⟨l, by rw [alookup_ainsert_ne _ hbd]; exact hl, fun x hx => hx⟩
  | none =>
    by_cases hbd : b = d
    · subst hbd
      rw [hl] at hd
      cases hd
    · exact ⟨l, by rw [alookup_ainsert_ne _ hbd]; exact hl, fun x hx => hx⟩

theorem addRdep_self_mem (d c : String) (m : List (String × List String)) :
    ∃ l, alookup d (addRdep d c m) = some l ∧ c ∈ l := by
  unfold addRdep
  cases hd : alookup d m with
  | some l0 => exact ⟨setAdd c l0, alookup_ainsert_self d _ m, setAdd_mem_self c l0⟩
  | none => exact ⟨[c], alookup_ainsert_self d _ m, List.mem_singleton.mpr rfl⟩

theorem rdFoldAdd_grow (c : String) : ∀ (ds : List String) (m : List (String × List String)),
    rdepsGrow m (rdFoldAdd c ds m) := by
  intro ds
  induction ds with
  | nil => intro m; exact rdepsGrow_refl m
  | cons d t ih =>
    intro m
    exact rdepsGrow_trans (addRdep_grow d c m) (ih (addRdep d c m))

theorem rdFoldAdd_mem (c : String) : ∀ (ds : List String) (m : List (String × List String)),
    ∀ d ∈ ds, ∃ l, alookup d (rdFoldAdd c ds m) = some l ∧ c ∈ l := by
  intro ds
  induction ds with
  | nil => intro m d hd; cases hd
  | cons d0 t ih =>
    intro m d hd
    rcases List.mem_cons.mp hd with rfl | hd2
    · obtain ⟨l0, hl0, hc⟩ := addRdep_self_mem d c m
      obtain ⟨l1, hl1, hsub⟩ := rdFoldAdd_grow c t (addRdep d c m) d l0 hl0
      exact ⟨l1, hl1, hsub c hc⟩
    · exact ih (addRdep d0 c m) d hd2

theorem foldRdeps_eq (c : String) : ∀ (ds : List String) (t : Sheet),
    ds.foldl (fun st d => { st with rdeps := addRdep d c st.rdeps }) t =
      { t with rdeps := rdFoldAdd c ds t.rdeps } := by
  intro ds
  induction ds with
  | nil => intro t; rfl
  | cons d tl ih =>
    intro t
    exact ih { t with rdeps := addRdep d c t.rdeps }

theorem updateDependencies_eq (s : Sheet) (cell formula : String) :
    updateDependencies s cell formula =
      { s with deps := ainsert cell (.flist (findRefsStr formula)) s.deps,
               rdeps := rdFoldAdd cell (findRefsStr formula) s.rdeps } := by
  unfold updateDependencies
  exact foldRdeps_eq cell (findRefsStr formula) _

theorem depsSubRdeps_mono {s s2 : Sheet} (hd : s2.deps = s.deps)
    (hr : rdepsGrow s.rdeps s2.rdeps) (h : depsSubRdeps s) : depsSubRdeps s2 := by
  intro a dv hdv b hb
  rw [hd] at hdv
  obtain ⟨l, hl, hmem⟩ := h a dv hdv b hb
  obtain ⟨l2, hl2, hsub⟩ := hr b l hl
  exact ⟨l2, hl2, hsub a hmem⟩

theorem depsSubRdeps_same {s s2 : Sheet} (hd : s2.deps = s.deps)
    (hr : s2.rdeps = s.rdeps) (h : depsSubRdeps s) : depsSubRdeps s2 :=
  depsSubRdeps_mono hd (by rw [hr]; exact rdepsGrow_refl s.rdeps) h

theorem updateDependencies_pres {s : Sheet} (cell formula : String)
    (h : depsSubRdeps s) : depsSubRdeps (updateDependencies s cell formula) := by
  rw [updateDependencies_eq]
  intro a dv hdv b hb
  have hdv2 : alookup a (ainsert cell (DepVal.flist (findRefsStr formula)) s.deps) =
      some dv := hdv
  by_cases hac : a = cell
  · subst hac
    rw [alookup_ainsert_self] at hdv2
    cases hdv2
    exact rdFoldAdd_mem a (findRefsStr formula) s.rdeps b hb
  · rw [alookup_ainsert_ne _ hac] at hdv2
    obtain ⟨l, hl, hmem⟩ := h a dv hdv2 b hb
    obtain ⟨l2, hl2, hsub⟩ := rdFoldAdd_grow cell (findRefsStr formula) s.rdeps b l hl
    exact ⟨l2, hl2, hsub a hmem⟩

theorem trackStep_pres (cell d : String) (acc : Option SErr × Sheet)
    (h : depsSubRdeps acc.2) : depsSubRdeps (trackStep cell acc d).2 := by
  obtain ⟨e, s⟩ := acc
  cases e with
  | some e => exact h
  | none =>
    have hgrow : rdepsGrow s.rdeps (addRdep d cell s.rdeps) := addRdep_grow d cell s.rdeps
    cases hc : alookup cell s.deps with
    | none =>
      have hstep : trackStep cell (none, s) d =
          (none, { s with rdeps := addRdep d cell s.rdeps,
                          deps := ainsert cell (DepVal.fset [d]) s.deps }) := by
        show (match alookup cell s.deps with
          | some (DepVal.fset l) =>
            (none, { s with rdeps := addRdep d cell s.rdeps,
                            deps := ainsert cell (DepVal.fset (setAdd d l)) s.deps })
          | some (DepVal.flist _) =>
            (some SErr.attributeFault, { s with rdeps := addRdep d cell s.rdeps })
          | none =>
            (none, { s with rdeps := addRdep d cell s.rdeps,
                            deps := ainsert cell (DepVal.fset [d]) s.deps })) = _
        rw [hc]
      rw [hstep]
      intro a dv hdv b hb
      have hdv2 : alookup a (ainsert cell (DepVal.fset [d]) s.deps) = some dv := hdv
      by_cases hac : a = cell
      · subst hac
        rw [alookup_ainsert_self] at hdv2
        cases hdv2
        obtain rfl := List.mem_singleton.mp hb
        exact addRdep_self_mem _ _ s.rdeps
      · rw [alookup_ainsert_ne _ hac] at hdv2
        obtain ⟨l, hl, hmem⟩ := h a dv hdv2 b hb
        obtain ⟨l2, hl2, hsub⟩ := hgrow b l hl
        exact ⟨l2, hl2, hsub a hmem⟩
    | some dv0 =>
      cases dv0 with
      | flist l0 =>
        have hstep : trackStep cell (none, s) d =
            (some SErr.attributeFault, { s with rdeps := addRdep d cell s.rdeps }) := by
          show (match alookup cell s.deps with
            | some (DepVal.fset l) =>
              (none, { s with rdeps := addRdep d cell s.rdeps,
                              deps := ainsert cell (DepVal.fset (setAdd d l)) s.deps })
            | some (DepVal.flist _) =>
              (some SErr.attributeFault, { s with rdeps := addRdep d cell s.rdeps })
            | none =>
              (none, { s with rdeps := addRdep d cell s.rdeps,
                              deps := ainsert cell (DepVal.fset [d]) s.deps })) = _
          rw [hc]
        rw [hstep]
        exact depsSubRdeps_mono (s := s) rfl hgrow h
      | fset l0 =>
        have hstep : trackStep cell (none, s) d =
            (none, { s with rdeps := addRdep d cell s.rdeps,
                            deps := ainsert cell (DepVal.fset (setAdd d l0)) s.deps }) := by
          show (match alookup cell s.deps with
            | some (DepVal.fset l) =>
              (none, { s with rdeps := addRdep d cell s.rdeps,
                              deps := ainsert cell (DepVal.fset (setAdd d l)) s.deps })
            | some (DepVal.flist _) =>
              (some SErr.attributeFault, { s with rdeps := addRdep d cell s.rdeps })
            | none =>
              (none, { s with rdeps := addRdep d cell s.rdeps,
                              deps := ainsert cell (DepVal.fset [d]) s.deps })) = _
          rw [hc]
        rw [hstep]
        intro a dv hdv b hb
        have hdv2 : alookup a (ainsert cell (DepVal.fset (setAdd d l0)) s.deps) =
            some dv := hdv
        by_cases hac : a = cell
        · subst hac
          rw [alookup_ainsert_self] at hdv2
          cases hdv2
          rcases setAdd_cases hb with rfl | hb2
          · exact addRdep_self_mem _ _ s.rdeps
          · obtain ⟨l, hl, hmem⟩ := h a (DepVal.fset l0) hc b hb2
            obtain ⟨l2, hl2, hsub⟩ := hgrow b l hl
            exact ⟨l2, hl2, hsub a hmem⟩
        · rw [alookup_ainsert_ne _ hac] at hdv2
          obtain ⟨l, hl, hmem⟩ := h a dv hdv2 b hb
          obtain ⟨l2, hl2, hsub⟩ := hgrow b l hl
          exact ⟨l2, hl2, hsub a hmem⟩

theorem foldl_inv {α β : Type} {P : α → Prop} {f : α → β → α}
    (hstep : ∀ a b, P a → P (f a b)) : ∀ (l : List β) (a : α), P a → P (l.foldl f a) := by
  intro l
  induction l with
  | nil => intro a ha; exact ha
  | cons b t ih => intro a ha; exact ih (f a b) (hstep a b ha)

theorem trackFD_pres (s : Sheet) (cell : String) (r : String × String)
    (h : depsSubRdeps s) : depsSubRdeps (trackFunctionDependencies s cell r).2 := by
  unfold trackFunctionDependencies
  cases hp1 : parseCellAddress r.1 with
  | none => exact h
  | some p1 =>
    obtain ⟨sr, sc⟩ := p1
    cases hp2 : parseCellAddress r.2 with
    | none => exact h
    | some p2 =>
      obtain ⟨er, ec⟩ := p2
      exact foldl_inv (P := fun acc => depsSubRdeps acc.2)
        (fun acc d hacc => trackStep_pres cell d acc hacc) _ (none, s) h

theorem expand_shape (s : Sheet) (cell : String) :
    (expandSheet s cell).2.functions = s.functions ∧
    (expandSheet s cell).2.deps = s.deps ∧ (expandSheet s cell).2.rdeps = s.rdeps := by
  cases hp : parseCellAddress cell with
  | none =>
    have he : expandSheet s cell = (some SErr.invalidAddress, s) := by
      unfold expandSheet
      rw [hp]
    rw [he]
    exact ⟨rfl, rfl, rfl⟩
  | some rl =>
    obtain ⟨r, lab⟩ := rl
    by_cases hc : letterVal lab.data > 500 ∨ r > 500
    · have he : expandSheet s cell = (some SErr.sizeLimit, s) := by
        unfold expandSheet
        rw [hp]
        show (if letterVal lab.data > 500 ∨ r > 500 then _ else _) = _
        rw [if_pos hc]
      rw [he]
      exact ⟨rfl, rfl, rfl⟩
    · have he : expandSheet s cell =
          (none, { s with rows := max s.rows r, cols := max s.cols (letterVal lab.data) }) := by
        unfold expandSheet
        rw [hp]
        show (if letterVal lab.data > 500 ∨ r > 500 then _ else _) = _
        rw [if_neg hc]
      rw [he]
      exact ⟨rfl, rfl, rfl⟩

theorem setDirect_shape (s : Sheet) (cell : String) (v : Val) :
    (setCellValueDirect s cell v).2.functions = s.functions ∧
    (setCellValueDirect s cell v).2.deps = s.deps ∧
    (setCellValueDirect s cell v).2.rdeps = s.rdeps := by
  unfold setCellValueDirect
  cases parseCellAddress cell with
  | none => exact ⟨rfl, rfl, rfl⟩
  | some rl =>
    obtain ⟨r, lab⟩ := rl
    exact ⟨rfl, rfl, rfl⟩

theorem bindE_pres {P : Sheet → Prop} {r : Option SErr × Sheet}
    {k : Sheet → Option SErr × Sheet}
    (h1 : P r.2) (h2 : ∀ t, P t → P (k t).2) : P (bindE r k).2 := by
  obtain ⟨e, s⟩ := r
  cases e with
  | some e => exact h1
  | none => exact h2 s h1

theorem scv_unfold (f : Nat) (cell value : String)
    (finfo : Option (String × (String × String))) (s : Sheet) :
    runCall (f + 1) (.scv cell value finfo) s =
      bindE (expandSheet s cell) fun s =>
      bindE (if value = "" then runCall f (.del cell) s else (none, s)) fun s =>
      bindE (if (alookup cell s.formulas).isSome ∨ (alookup cell s.functions).isSome then
               runCall f (.del cell) s
             else (none, s)) fun s =>
      scvTail f cell value (match finfo with
        | some fi => { s with functions := ainsert cell fi s.functions }
        | none => s) := rfl

theorem setDirect_pres (s : Sheet) (cell : String) (v : Val) (h : depsSubRdeps s) :
    depsSubRdeps (setCellValueDirect s cell v).2 :=
  depsSubRdeps_same (setDirect_shape s cell v).2.1 (setDirect_shape s cell v).2.2 h

theorem expand_pres (s : Sheet) (cell : String) (h : depsSubRdeps s) :
    depsSubRdeps (expandSheet s cell).2 :=
  depsSubRdeps_same (expand_shape s cell).2.1 (expand_shape s cell).2.2 h

theorem calc_pres (s : Sheet) (t fo : String) (h : depsSubRdeps s) :
    depsSubRdeps (calculateFormula s t fo).2 :=
  depsSubRdeps_same (calcFormula_shape s t fo).2.2.1 (calcFormula_shape s t fo).2.2.2.1 h

theorem clear_pres (s : Sheet) : depsSubRdeps (clearSheet s) :=
  fun _ _ hdv => Option.noConfusion hdv

theorem scvTail_dsr (f : Nat) (cell value : String) (t : Sheet)
    (ih : ∀ c s, depsSubRdeps s → depsSubRdeps (runCall f c s).2)
    (ht : depsSubRdeps t) : depsSubRdeps (scvTail f cell value t).2 := by
  unfold scvTail
  split
  · cases hcc : circCheck t.deps cell (findRefsStr (String.mk (value.data.drop 1))) with
    | some e => exact ht
    | none =>
      refine bindE_pres ?_ ?_
      · apply calc_pres
        apply updateDependencies_pres
        exact depsSubRdeps_same rfl rfl ht
      · intro t4 ht4
        exact ih _ t4 ht4
  · refine bindE_pres ?_ ?_
    · exact setDirect_pres t cell _ ht
    · intro t4 ht4
      exact ih _ t4 ht4

/-- Every engine step preserves the forward half of the dependency-map inverse
invariant, whether it succeeds or raises: reverse edges are only ever added,
and every forward edge is inserted together with its reverse edge. -/
theorem runCall_dsr : ∀ f : Nat, ∀ c : MCall, ∀ s : Sheet,
    depsSubRdeps s → depsSubRdeps (runCall f c s).2 := by
  intro f
  induction f with
  | zero => intro c s hs; exact hs
  | succ f ih =>
    intro c s hs
    cases c with
    | scv cell value finfo =>
      rw [scv_unfold]
      refine bindE_pres ?_ ?_
      · exact expand_pres s cell hs
      · intro t1 h1
        refine bindE_pres ?_ ?_
        · split
          · exact ih (.del cell) t1 h1
          · exact h1
        · intro t2 h2
          refine bindE_pres ?_ ?_
          · split
            · exact ih (.del cell) t2 h2
            · exact h2
          · intro t3 h3
            apply scvTail_dsr f cell value _ ih
            cases finfo with
            | some fi => exact depsSubRdeps_same rfl rfl h3
            | none => exact h3
    | del cell =>
      refine bindE_pres ?_ ?_
      · exact setDirect_pres s cell _ hs
      · intro t1 h1
        exact ih (.recalcDeps cell) _ (depsSubRdeps_same rfl rfl h1)
    | recalcDeps cell =>
      refine bindE_pres ?_ ?_
      · cases hrd : alookup cell s.rdeps with
        | some l => exact ih (.recalcRdepLoop l) s hs
        | none => exact hs
      · intro t1 h1
        exact ih (.recalcFuncLoop t1.functions cell) t1 h1
    | recalcRdepLoop cells =>
      cases cells with
      | nil => exact hs
      | cons c0 t =>
        refine bindE_pres ?_ ?_
        · cases hcf : alookup c0 s.formulas with
          | some fo =>
            refine bindE_pres ?_ ?_
            · exact calc_pres s c0 fo hs
            · intro t1 h1
              exact ih (.recalcDeps c0) t1 h1
          | none => exact hs
        · intro t1 h1
          exact ih (.recalcRdepLoop t) t1 h1
    | recalcFuncLoop funcs cell =>
      cases funcs with
      | nil => exact hs
      | cons p t =>
        obtain ⟨fc, fn, r⟩ := p
        refine bindE_pres ?_ ?_
        · cases hfr : cellInFunctionRange cell r with
          | none => exact hs
          | some b =>
            cases b with
            | false => exact hs
            | true =>
              refine bindE_pres ?_ ?_
              · split
                · exact ih (.exec fc fn r) s hs
                · exact hs
              · intro t1 h1
                exact ih (.recalcDeps fc) t1 h1
        · intro t1 h1
          exact ih (.recalcFuncLoop t cell) t1 h1
    | exec cell fn r =>
      obtain ⟨r1, r2⟩ := r
      rw [exec_unfold]
      cases hp : parseCellAddress cell with
      | none => exact hs
      | some pr =>
        by_cases hre : r1 = "" ∨ r2 = ""
        · rw [if_pos hre]
          exact hs
        · rw [if_neg hre]
          cases hvr : isValidRange r1 r2 with
          | none => exact hs
          | some b =>
            cases b with
            | false => exact hs
            | true =>
              cases hin : cellInFunctionRange cell (r1, r2) with
              | none => exact hs
              | some b2 =>
                cases b2 with
                | true => exact hs
                | false =>
                  cases hdisp : functionDispatch s fn (r1, r2) with
                  | none => exact hs
                  | some res =>
                    cases res with
                    | none => exact hs
                    | some result =>
                      exact ih (.fhandle cell fn (r1, r2) result) s hs
    | fhandle cell fn r result =>
      refine bindE_pres ?_ ?_
      · exact ih (.scv cell result (some (fn, r))) s hs
      · intro t1 h1
        exact trackFD_pres t1 cell r h1

theorem runOp_dsr (fuel : Nat) (s : Sheet) (op : Op) (h : depsSubRdeps s) :
    depsSubRdeps (runOp fuel s op).2 := by
  cases op with
  | set c v => exact runCall_dsr fuel _ s h
  | del c => exact runCall_dsr fuel _ s h
  | exec c fn r => exact runCall_dsr fuel _ s h
  | clear => exact clear_pres s

theorem trace_dsr (fuel : Nat) : ∀ (ops : List Op) (s s2 : Sheet),
    depsSubRdeps s → runTraceOk fuel s ops = some s2 → depsSubRdeps s2 := by
  intro ops
  induction ops with
  | nil =>
    intro s s2 hs h
    exact (Option.some.inj h) ▸ hs
  | cons op t ih =>
    intro s s2 hs h
    cases hro : runOp fuel s op with
    | mk e s1 =>
      cases e with
      | none =>
        have h1 : depsSubRdeps s1 := by
          have h0 := runOp_dsr fuel s op hs
          rw [hro] at h0
          exact h0
        rw [show runTraceOk fuel s (op :: t) = runTraceOk fuel s1 t from by
          show (match runOp fuel s op with
            | (none, s3) => runTraceOk fuel s3 t
            | (some _, _) => none) = _
          rw [hro]] at h
        exact ih s1 s2 h1 h
      | some e =>
        rw [show runTraceOk fuel s (op :: t) = none from by
          show (match runOp fuel s op with
            | (none, s3) => runTraceOk fuel s3 t
            | (some _, _) => none) = _
          rw [hro]] at h
        cases h

theorem initial_dsr : depsSubRdeps initialSheet :=
  fun _ _ hdv => Option.noConfusion hdv

/--
Counterexample to C3: after `set_cell_value("A1", "=B1")` then
`set_cell_value("A1", "=C1")` — both accepted — `_reverse_dependencies["B1"]`
still contains `"A1"` although `_dependencies["A1"] = ["C1"]` no longer
contains `"B1"`: replacing a formula does not remove the stale reverse edge,
so the two maps are not exact inverses.
-/
theorem c3_counterexample :
    ∃ s, runTraceOk 40 initialSheet [Op.set "A1" "=B1", Op.set "A1" "=C1"] = some s ∧
      ¬ rdepsSubDeps s := by
  refine ⟨(runTraceOk 40 initialSheet [Op.set "A1" "=B1", Op.set "A1" "=C1"]).getD
    initialSheet, by decide, ?_⟩
  intro hinv
  obtain ⟨dv, hdv, hmem⟩ := hinv "B1" ["A1"] (by decide) "A1" (by decide)
  have hA1 : alookup "A1" ((runTraceOk 40 initialSheet
      [Op.set "A1" "=B1", Op.set "A1" "=C1"]).getD initialSheet).deps =
      some (DepVal.flist ["C1"]) := by decide
  rw [hA1] at hdv
  cases hdv
  exact absurd hmem (by decide)

/--
C3, amended: after any sequence of public operations accepted without error
from a fresh sheet, the forward half of the inverse invariant holds — for
every cell `a` and every `b ∈ _dependencies[a]`, `a ∈
_reverse_dependencies[b]`.  The backward half fails: stale reverse edges of
referents no longer present are not removed (see the counterexample).
-/
theorem c3_amended (fuel : Nat) (ops : List Op) (s : Sheet)
    (h : runTraceOk fuel initialSheet ops = some s) : depsSubRdeps s :=
  trace_dsr fuel ops initialSheet s initial_dsr h

/-- Witness for C3 (amended) on a concrete accepted trace. -/
theorem c3_amended_witness :
    depsSubRdeps ((runTraceOk 40 initialSheet [Op.set "A1" "=B1"]).getD initialSheet) :=
  c3_amended 40 [Op.set "A1" "=B1"] _ (by decide)

/-! ## C1 — completeness of the cycle check -/

theorem dfsCirc_succ (deps : List (String × DepVal)) (target : String) (f : Nat)
    (cell : String) (visited : List String) :
    dfsCirc deps target (f + 1) cell visited =
      if cell = target then some (true, setAdd cell visited)
      else (depsCellsOf deps cell).foldl (dfsStep deps target f)
        (some (false, setAdd cell visited)) := rfl

theorem dfsStep_fold_none (deps : List (String × DepVal)) (target : String) (f : Nat) :
    ∀ ds : List String, ds.foldl (dfsStep deps target f) none = none := by
  intro ds
  induction ds with
  | nil => rfl
  | cons d t ih => exact ih

theorem dfsStep_fold_true (deps : List (String × DepVal)) (target : String) (f : Nat)
    (vs : List String) :
    ∀ ds : List String, ds.foldl (dfsStep deps target f) (some (true, vs)) =
      some (true, vs) := by
  intro ds
  induction ds with
  | nil => rfl
  | cons d t ih => exact ih

/--
The visited set returned by a failed search is closed: it contains the start
cell and everything explored from it, it never contains the target, and every
newly visited cell has all its dependencies inside it.
-/
theorem dfs_closure (deps : List (String × DepVal)) (target : String) :
    ∀ f : Nat, ∀ (cell : String) (visited vis : List String),
      target ∉ visited →
      dfsCirc deps target f cell visited = some (false, vis) →
      (∀ x ∈ visited, x ∈ vis) ∧ cell ∈ vis ∧ target ∉ vis ∧
      ∀ x ∈ vis, x ∉ visited → ∀ y ∈ depsCellsOf deps x, y ∈ vis := by
  intro f
  induction f with
  | zero =>
    intro cell visited vis _ h
    exact Option.noConfusion h
  | succ f ih =>
    intro cell visited vis htv h
    rw [dfsCirc_succ] at h
    by_cases hct : cell = target
    · rw [if_pos hct] at h
      simp at h
    · rw [if_neg hct] at h
      have A2 : ∀ (ds : List String) (vs0 vis2 : List String),
          target ∉ vs0 →
          ds.foldl (dfsStep deps target f) (some (false, vs0)) = some (false, vis2) →
          (∀ x ∈ vs0, x ∈ vis2) ∧ target ∉ vis2 ∧ (∀ d ∈ ds, d ∈ vis2) ∧
          ∀ x ∈ vis2, x ∉ vs0 → ∀ y ∈ depsCellsOf deps x, y ∈ vis2 := by
        intro ds
        induction ds with
        | nil =>
          intro vs0 vis2 ht h2
          have hv : vs0 = vis2 := by
            have := Option.some.inj h2
            exact (Prod.mk.injEq _ _ _ _).mp this |>.2
          subst hv
          exact ⟨fun x hx => hx, ht, fun d hd => absurd hd (List.not_mem_nil d),
            fun x hx hnx => absurd hx hnx⟩
        | cons d t iht =>
          intro vs0 vis2 ht h2
          rw [List.foldl_cons] at h2
          by_cases hdt : d = target
          · have hstep : dfsStep deps target f (some (false, vs0)) d = some (true, vs0) := by
              show (if d = target then some (true, vs0)
                else if d ∈ vs0 then some (false, vs0)
                else dfsCirc deps target f d vs0) = some (true, vs0)
              rw [if_pos hdt]
            rw [hstep, dfsStep_fold_true] at h2
            simp at h2
          · by_cases hdv : d ∈ vs0
            · have hstep : dfsStep deps target f (some (false, vs0)) d =
                  some (false, vs0) := by
                show (if d = target then some (true, vs0)
                  else if d ∈ vs0 then some (false, vs0)
                  else dfsCirc deps target f d vs0) = some (false, vs0)
                rw [if_neg hdt, if_pos hdv]
              rw [hstep] at h2
              obtain ⟨hsub, ht2, hmem, hclo⟩ := iht vs0 vis2 ht h2
              refine ⟨hsub, ht2, ?_, hclo⟩
              intro d2 hd2
              rcases List.mem_cons.mp hd2 with rfl | hd3
              · exact hsub d2 hdv
              · exact hmem d2 hd3
            · have hstep : dfsStep deps target f (some (false, vs0)) d =
                  dfsCirc deps target f d vs0 := by
                show (if d = target then some (true, vs0)
                  else if d ∈ vs0 then some (false, vs0)
                  else dfsCirc deps target f d vs0) = dfsCirc deps target f d vs0
                rw [if_neg hdt, if_neg hdv]
              rw [hstep] at h2
              cases hr : dfsCirc deps target f d vs0 with
              | none =>
                rw [hr, dfsStep_fold_none] at h2
                exact Option.noConfusion h2
              | some bv =>
                obtain ⟨b, vs1⟩ := bv
                cases b with
                | true =>
                  rw [hr, dfsStep_fold_true] at h2
                  simp at h2
                | false =>
                  rw [hr] at h2
                  obtain ⟨hsub1, hd1, ht1, hclo1⟩ := ih d vs0 vs1 ht hr
                  obtain ⟨hsub2, ht2, hmem2, hclo2⟩ := iht vs1 vis2 ht1 h2
                  refine ⟨fun x hx => hsub2 x (hsub1 x hx), ht2, ?_, ?_⟩
                  · intro d2 hd2
                    rcases List.mem_cons.mp hd2 with rfl | hd3
                    · exact hsub2 d2 hd1
                    · exact hmem2 d2 hd3
                  · intro x hx hnx
                    by_cases hx1 : x ∈ vs1
                    · intro y hy
                      exact hsub2 y (hclo1 x hx1 hnx y hy)
                    · exact hclo2 x hx hx1
      have htv2 : target ∉ setAdd cell visited := by
        intro hc
        rcases setAdd_cases hc with rfl | hc2
        · exact hct rfl
        · exact htv hc2
      obtain ⟨hsub, ht2, hmem, hclo⟩ := A2 (depsCellsOf deps cell) (setAdd cell visited)
        vis htv2 h
      refine ⟨fun x hx => hsub x (setAdd_mem_of_mem cell hx),
        hsub cell (setAdd_mem_self cell visited), ht2, ?_⟩
      intro x hx hnx y hy
      by_cases hxs : x ∈ setAdd cell visited
      · rcases setAdd_cases hxs with rfl | hxv
        · exact hmem y hy
        · exact absurd hxv hnx
      · exact hclo x hx hxs y hy

/-- Every closed visited set bounds reachability. -/
theorem closed_not_reach (deps : List (String × DepVal)) (S : List String)
    (hclo : ∀ x ∈ S, ∀ y ∈ depsCellsOf deps x, y ∈ S) :
    ∀ a b, Relation.ReflTransGen (depEdge deps) a b → a ∈ S → b ∈ S := by
  intro a b h
  induction h with
  | refl => exact fun ha => ha
  | tail hab hbc iht => exact fun ha => hclo _ (iht ha) _ hbc

/-- Completeness of `has_circular_dependency`: a `False` answer means the
target is not reachable from the start cell through `_dependencies`. -/
theorem dfs_false_not_reach (deps : List (String × DepVal)) (target d : String)
    (vis : List String)
    (h : dfsCirc deps target (depsFuel deps) d [] = some (false, vis)) :
    ¬ Relation.ReflTransGen (depEdge deps) d target := by
  intro hreach
  obtain ⟨hsub, hd, ht, hclo⟩ :=
    dfs_closure deps target (depsFuel deps) d [] vis (List.not_mem_nil target) h
  have hcl : ∀ x ∈ vis, ∀ y ∈ depsCellsOf deps x, y ∈ vis :=
    fun x hx => hclo x hx (List.not_mem_nil x)
  exact ht (closed_not_reach deps vis hcl d target hreach hd)

/-- The accepted cycle check of `set_cell_value` guarantees that `cell` is
unreachable from every reference of the new formula. -/
theorem circCheck_none_sound (deps : List (String × DepVal)) (cell : String) :
    ∀ ds : List String, circCheck deps cell ds = none →
      ∀ d ∈ ds, ¬ Relation.ReflTransGen (depEdge deps) d cell := by
  intro ds
  induction ds with
  | nil => intro _ d hd; cases hd
  | cons d0 t ih =>
    intro h d hd
    have he : circCheck deps cell (d0 :: t) =
        match dfsCirc deps cell (depsFuel deps) d0 [] with
        | none => some SErr.recursionFault
        | some (true, _) => some SErr.circularDependency
        | some (false, _) => circCheck deps cell t := rfl
    cases hr : dfsCirc deps cell (depsFuel deps) d0 [] with
    | none =>
      rw [he] at h
      simp only [hr] at h
      exact Option.noConfusion h
    | some bv =>
      obtain ⟨b, vs⟩ := bv
      cases b with
      | true =>
        rw [he] at h
        simp only [hr] at h
        exact Option.noConfusion h
      | false =>
        rw [he] at h
        simp only [hr] at h
        rcases List.mem_cons.mp hd with rfl | hd2
        · exact dfs_false_not_reach deps cell d vs hr
        · exact ih h d hd2

/-! ## C1 — inserting a checked dependency list keeps the graph acyclic -/

theorem depsCellsOf_ainsert_ne {deps : List (String × DepVal)} {cell x : String}
    (v : DepVal) (h : x ≠ cell) :
    depsCellsOf (ainsert cell v deps) x = depsCellsOf deps x := by
  unfold depsCellsOf
  rw [alookup_ainsert_ne v h]

theorem depsCellsOf_ainsert_self (deps : List (String × DepVal)) (cell : String)
    (v : DepVal) : depsCellsOf (ainsert cell v deps) cell = v.cells := by
  unfold depsCellsOf
  rw [alookup_ainsert_self]

/-- A path in the extended graph either already exists in the old graph or
first reaches `cell` through old edges only. -/
theorem reach_insert_proj (deps : List (String × DepVal)) (cell : String) (v : DepVal) :
    ∀ x y, Relation.ReflTransGen (depEdge (ainsert cell v deps)) x y →
      Relation.ReflTransGen (depEdge deps) x y ∨
      Relation.ReflTransGen (depEdge deps) x cell := by
  intro x y h
  induction h with
  | refl => exact Or.inl Relation.ReflTransGen.refl
  | @tail b c hab hbc iht =>
    rcases iht with iht | iht
    · by_cases hb : b = cell
      · subst hb
        exact Or.inr iht
      · refine Or.inl (Relation.ReflTransGen.tail iht ?_)
        have h2 : depEdge (ainsert cell v deps) b c := hbc
        unfold depEdge at h2 ⊢
        rw [depsCellsOf_ainsert_ne v hb] at h2
        exact h2
    · exact Or.inr iht

/-- A nonempty path in the extended graph either exists in the old graph, or
reaches `cell` through old edges and then leaves it through one of the newly
inserted references. -/
theorem trans_insert_decomp (deps : List (String × DepVal)) (cell : String)
    (ds : List String) :
    ∀ a b, Relation.TransGen (depEdge (ainsert cell (.flist ds) deps)) a b →
      Relation.TransGen (depEdge deps) a b ∨
      (Relation.ReflTransGen (depEdge deps) a cell ∧
        ∃ d ∈ ds, Relation.ReflTransGen (depEdge (ainsert cell (.flist ds) deps)) d b) := by
  intro a b h
  induction h with
  | @single b hab =>
    by_cases ha : a = cell
    · subst ha
      have hb : b ∈ ds := by
        have h2 : depEdge (ainsert a (.flist ds) deps) a b := hab
        unfold depEdge at h2
        rw [depsCellsOf_ainsert_self] at h2
        exact h2
      exact Or.inr ⟨Relation.ReflTransGen.refl, b, hb, Relation.ReflTransGen.refl⟩
    · refine Or.inl (Relation.TransGen.single ?_)
      have h2 : depEdge (ainsert cell (.flist ds) deps) a b := hab
      unfold depEdge at h2 ⊢
      rw [depsCellsOf_ainsert_ne _ ha] at h2
      exact h2
  | @tail b c hab hbc iht =>
    rcases iht with iht | ⟨hac, d, hd, hdb⟩
    · by_cases hb : b = cell
      · subst hb
        have hc : c ∈ ds := by
          have h2 : depEdge (ainsert b (.flist ds) deps) b c := hbc
          unfold depEdge at h2
          rw [depsCellsOf_ainsert_self] at h2
          exact h2
        exact Or.inr ⟨iht.to_reflTransGen, c, hc, Relation.ReflTransGen.refl⟩
      · refine Or.inl (Relation.TransGen.tail iht ?_)
        have h2 : depEdge (ainsert cell (.flist ds) deps) b c := hbc
        unfold depEdge at h2 ⊢
        rw [depsCellsOf_ainsert_ne _ hb] at h2
        exact h2
    · exact Or.inr ⟨hac, d, hd, Relation.ReflTransGen.tail hdb hbc⟩

/-- Committing a formula whose references passed the cycle check keeps the
dependency graph free of cycles. -/
theorem insert_acyclic (deps : List (String × DepVal)) (cell : String)
    (ds : List String) (hacy : acyclicDeps deps) (hcc : circCheck deps cell ds = none) :
    acyclicDeps (ainsert cell (.flist ds) deps) := by
  intro a hcyc
  rcases trans_insert_decomp deps cell ds a a hcyc with h | ⟨hac, d, hd, hda⟩
  · exact hacy a h
  · have hnd : ¬ Relation.ReflTransGen (depEdge deps) d cell :=
      circCheck_none_sound deps cell ds hcc d hd
    rcases reach_insert_proj deps cell (.flist ds) d a hda with h2 | h2
    · exact hnd (h2.trans hac)
    · exact hnd h2

theorem acyclicNil : acyclicDeps ([] : List (String × DepVal)) := by
  intro a h
  cases h with
  | single hab => exact absurd hab (List.not_mem_nil _)
  | tail h1 hab => exact absurd hab (List.not_mem_nil _)

/-! ## C1 — the invariant of formula-only runs -/

theorem funcsNilAcyclic_same {s s2 : Sheet} (hf : s2.functions = s.functions)
    (hd : s2.deps = s.deps) (h : funcsNilAcyclic s) : funcsNilAcyclic s2 :=
  ⟨hf.trans h.1, by rw [hd]; exact h.2⟩

theorem scvTail_acyc (f : Nat) (cell value : String) (t : Sheet)
    (ih : ∀ c s, funcFreeCall c → funcsNilAcyclic s → funcsNilAcyclic (runCall f c s).2)
    (ht : funcsNilAcyclic t) : funcsNilAcyclic (scvTail f cell value t).2 := by
  unfold scvTail
  split
  · cases hcc : circCheck t.deps cell (findRefsStr (String.mk (value.data.drop 1))) with
    | some e => exact ht
    | none =>
      refine bindE_pres ?_ ?_
      · have hshape := calcFormula_shape
          (updateDependencies
            { t with formulas := ainsert cell (String.mk (value.data.drop 1)) t.formulas }
            cell (String.mk (value.data.drop 1)))
          cell (String.mk (value.data.drop 1))
        refine funcsNilAcyclic_same hshape.2.1 hshape.2.2.1 ?_
        rw [updateDependencies_eq]
        exact ⟨ht.1, insert_acyclic t.deps cell _ ht.2 hcc⟩
      · intro t4 h4
        exact ih (.recalcDeps cell) t4 trivial h4
  · refine bindE_pres ?_ ?_
    · exact funcsNilAcyclic_same (setDirect_shape t cell _).1 (setDirect_shape t cell _).2.1 ht
    · intro t4 h4
      exact ih (.recalcDeps cell) t4 trivial h4

/--
Every engine call reachable in a formula-only run — public `set_cell_value`
writes and the deletions and recalculations they trigger — keeps `_functions`
empty and the dependency graph acyclic, whether it succeeds or raises.
-/
theorem runCall_acyc : ∀ f : Nat, ∀ c : MCall, ∀ s : Sheet,
    funcFreeCall c → funcsNilAcyclic s → funcsNilAcyclic (runCall f c s).2 := by
  intro f
  induction f with
  | zero => intro c s _ hs; exact hs
  | succ f ih =>
    intro c s hg hs
    cases c with
    | scv cell value finfo =>
      have hfi : finfo = none := hg
      subst hfi
      rw [scv_unfold]
      refine bindE_pres ?_ ?_
      · exact funcsNilAcyclic_same (expand_shape s cell).1 (expand_shape s cell).2.1 hs
      · intro t1 h1
        refine bindE_pres ?_ ?_
        · split
          · exact ih (.del cell) t1 trivial h1
          · exact h1
        · intro t2 h2
          refine bindE_pres ?_ ?_
          · split
            · exact ih (.del cell) t2 trivial h2
            · exact h2
          · intro t3 h3
            exact scvTail_acyc f cell value t3 ih h3
    | del cell =>
      refine bindE_pres ?_ ?_
      · exact funcsNilAcyclic_same (setDirect_shape s cell _).1
          (setDirect_shape s cell _).2.1 hs
      · intro t1 h1
        refine ih (.recalcDeps cell) _ trivial ⟨?_, ?_⟩
        · show aerase cell t1.functions = []
          rw [h1.1]
          rfl
        · exact h1.2
    | recalcDeps cell =>
      refine bindE_pres ?_ ?_
      · cases hrd : alookup cell s.rdeps with
        | some l => exact ih (.recalcRdepLoop l) s trivial hs
        | none => exact hs
      · intro t1 h1
        exact ih (.recalcFuncLoop t1.functions cell) t1 h1.1 h1
    | recalcRdepLoop cells =>
      cases cells with
      | nil => exact hs
      | cons c0 t =>
        refine bindE_pres ?_ ?_
        · cases hcf : alookup c0 s.formulas with
          | some fo =>
            refine bindE_pres ?_ ?_
            · exact funcsNilAcyclic_same (calcFormula_shape s c0 fo).2.1
                (calcFormula_shape s c0 fo).2.2.1 hs
            · intro t1 h1
              exact ih (.recalcDeps c0) t1 trivial h1
          | none => exact hs
        · intro t1 h1
          exact ih (.recalcRdepLoop t) t1 trivial h1
    | recalcFuncLoop funcs cell =>
      have hfn : funcs = [] := hg
      subst hfn
      exact hs
    | exec cell fn r => exact hg.elim
    | fhandle cell fn r result => exact hg.elim

/-- A formula-only trace accepted from the fresh engine keeps `_functions`
empty and `_dependencies` acyclic. -/
theorem trace_acyc (fuel : Nat) : ∀ (l : List (String × String)) (s s2 : Sheet),
    funcsNilAcyclic s →
    runTraceOk fuel s (l.map (fun p : String × String => Op.set p.1 p.2)) = some s2 →
    funcsNilAcyclic s2 := by
  intro l
  induction l with
  | nil =>
    intro s s2 hs h
    exact (Option.some.inj h) ▸ hs
  | cons p t ih =>
    intro s s2 hs h
    cases hro : runCall fuel (.scv p.1 p.2 none) s with
    | mk e s1 =>
      cases e with
      | none =>
        have h1 : funcsNilAcyclic s1 := by
          have h0 := runCall_acyc fuel (.scv p.1 p.2 none) s rfl hs
          rw [hro] at h0
          exact h0
        rw [show runTraceOk fuel s ((p :: t).map (fun p : String × String => Op.set p.1 p.2)) =
            runTraceOk fuel s1 (t.map (fun p : String × String => Op.set p.1 p.2)) from by
          show (match runCall fuel (.scv p.1 p.2 none) s with
            | (none, s3) => runTraceOk fuel s3 (t.map (fun p : String × String => Op.set p.1 p.2))
            | (some _, _) => none) = _
          rw [hro]] at h
        exact ih s1 s2 h1 h
      | some e =>
        rw [show runTraceOk fuel s ((p :: t).map (fun p : String × String => Op.set p.1 p.2)) = none from by
          show (match runCall fuel (.scv p.1 p.2 none) s with
            | (none, s3) => runTraceOk fuel s3 (t.map (fun p : String × String => Op.set p.1 p.2))
            | (some _, _) => none) = _
          rw [hro]] at h
        cases h

/--
Counterexample to C1: the accepted sequence `set_cell_value("A1", "=C1")`,
`set_cell_value("A1", "5")`, `execute_function("C1", "Sum", ("A1", "A1"))`
leaves `_dependencies = {A1: [C1], C1: {A1}}` — the overwrite does not remove
the stale entry `A1 → C1`, and `execute_function` adds `C1 → A1` without any
cycle check — so `A1` is in the transitive closure of its own dependency set.
-/
theorem c1_counterexample :
    ∃ s, runTraceOk 40 initialSheet
        [Op.set "A1" "=C1", Op.set "A1" "5", Op.exec "C1" "Sum" ("A1", "A1")] = some s ∧
      inOwnClosure s.deps "A1" := by
  refine ⟨(runTraceOk 40 initialSheet
      [Op.set "A1" "=C1", Op.set "A1" "5", Op.exec "C1" "Sum" ("A1", "A1")]).getD
      initialSheet, by decide, ?_⟩
  have h1 : depEdge ((runTraceOk 40 initialSheet
      [Op.set "A1" "=C1", Op.set "A1" "5", Op.exec "C1" "Sum" ("A1", "A1")]).getD
      initialSheet).deps "A1" "C1" := by
    show "C1" ∈ depsCellsOf ((runTraceOk 40 initialSheet
      [Op.set "A1" "=C1", Op.set "A1" "5", Op.exec "C1" "Sum" ("A1", "A1")]).getD
      initialSheet).deps "A1"
    decide
  have h2 : depEdge ((runTraceOk 40 initialSheet
      [Op.set "A1" "=C1", Op.set "A1" "5", Op.exec "C1" "Sum" ("A1", "A1")]).getD
      initialSheet).deps "C1" "A1" := by
    show "A1" ∈ depsCellsOf ((runTraceOk 40 initialSheet
      [Op.set "A1" "=C1", Op.set "A1" "5", Op.exec "C1" "Sum" ("A1", "A1")]).getD
      initialSheet).deps "C1"
    decide
  exact Relation.TransGen.head h1 (Relation.TransGen.single h2)

/--
C1, amended: restricted to formula writes — any sequence of `set_cell_value`
calls accepted without error from a fresh sheet — no cell is contained in the
transitive closure of its own dependency set in `_dependencies`.  (With
`execute_function` writes included the invariant fails: see the
counterexample.)
-/
theorem c1_amended (fuel : Nat) (l : List (String × String)) (s : Sheet)
    (h : runSetTraceOk fuel l = some s) : acyclicDeps s.deps :=
  (trace_acyc fuel l initialSheet s ⟨rfl, acyclicNil⟩ h).2

/-- Witness for C1 (amended) on a concrete accepted trace of formula writes. -/
theorem c1_amended_witness :
    acyclicDeps ((runSetTraceOk 40 [("A1", "=B1"), ("B1", "7")]).getD initialSheet).deps :=
  c1_amended 40 [("A1", "=B1"), ("B1", "7")] _ (by decide)

end SpreadsheetModel
